import Mathlib

/-!
# httplib.go : a verification development

A shallow embedding of `httplib.go` (package `httplib`), the fluent HTTP request builder, and
theorems about request finalisation, the connection opener's dial address and error propagation.

Modelling conventions.

* A Go `string` is a Lean `String` (UTF-8 text). Byte lengths (`len`) are `String.utf8ByteSize`,
  byte offsets returned by `strings.Index` / `strings.LastIndex` are computed from the UTF-8
  width of each character, and `bytesOf` gives the bytes themselves.
* A Go map (`url.Values`, `http.Header`) is an association list; a lookup returns the first
  binding and `Set` removes every binding of the key before adding the new one.
* A pointer that may be `nil` is an `Option`.
* The network and the URL parser are outside the package. They are the fields of `Env`; each
  network oracle receives the history of effects so far, so that successive calls may answer
  differently. Every effect the package performs is appended to the `World` log.
-/

namespace httplib

/-- The bytes of a Go string. -/
def bytesOf (s : String) : List UInt8 := s.toUTF8.data.toList

/-! ## Standard library: `strings` -/

namespace strings

/-- Whether the list `sub` starts the list `s` (`strings.HasPrefix` on the characters). -/
def startsWith : List Char → List Char → Bool
  | [], _ => true
  | _ :: _, [] => false
  | a :: as, b :: bs => a == b && startsWith as bs

/-- Byte offset of the first occurrence of `sub` in the characters `s`, or `-1`. -/
def indexFrom (sub : List Char) : List Char → Int
  | [] => if sub = [] then 0 else -1
  | c :: t =>
    if startsWith sub (c :: t) then 0
    else
      let r := indexFrom sub t
      if r = -1 then -1 else r + c.utf8Size

/-- Byte offset of the last occurrence of `sub` in the characters `s`, or `-1`. -/
def lastIndexFrom (sub : List Char) : List Char → Int
  | [] => if sub = [] then 0 else -1
  | c :: t =>
    let r := lastIndexFrom sub t
    if r ≠ -1 then r + c.utf8Size
    else if startsWith sub (c :: t) then 0 else -1

/-- Go `strings.Index(s, substr)`: the index of the first instance of `substr` in `s`, or `-1`
if `substr` is not present in `s`. -/
def Index (s substr : String) : Int := indexFrom substr.data s.data

/-- Go `strings.LastIndex(s, substr)`: the index of the last instance of `substr` in `s`, or
`-1` if `substr` is not present in `s`. -/
def LastIndex (s substr : String) : Int := lastIndexFrom substr.data s.data

end strings

/-! ## Standard library: `net/url` -/

namespace url

/-- Go `url.URL`, the fields a parsed URL carries. The package reads `Scheme` and `Host`. -/
structure URL where
  Scheme : String
  Opaque : String
  Host : String
  Path : String
  RawQuery : String
  Fragment : String
deriving DecidableEq, Repr

/-- Go `url.Values`, a `map[string][]string`. -/
abbrev Values := List (String × List String)

/-- Go `Values.Set`: `v[key] = []string{value}`. -/
def Values.Set (v : Values) (key value : String) : Values :=
  (key, [value]) :: v.filter (fun e => e.1 ≠ key)

/-- The values bound to `key`, that is `v[key]` (empty when the key is absent). -/
def Values.get (v : Values) (key : String) : List String :=
  (v.lookup key).getD []

/-- Go `shouldEscape(c, encodeQueryComponent)` on an ASCII character: everything is escaped
but the unreserved characters, which are letters, digits, `-`, `_`, `.` and `~`. -/
def shouldEscape (c : Char) : Bool :=
  if (65 ≤ c.toNat ∧ c.toNat ≤ 90) ∨ (97 ≤ c.toNat ∧ c.toNat ≤ 122) ∨
      (48 ≤ c.toNat ∧ c.toNat ≤ 57) then false
  else if c = '-' ∨ c = '_' ∨ c = '.' ∨ c = '~' then false
  else true

/-- The digit of `n % 16` in `"0123456789ABCDEF"`. -/
def upperhex (n : Nat) : Char :=
  if n % 16 < 10 then Char.ofNat (48 + n % 16) else Char.ofNat (55 + n % 16)

/-- The escape of one byte: `%` and two upper-case hexadecimal digits. -/
def escapeByte (b : UInt8) : List Char :=
  ['%', upperhex (b.toNat / 16), upperhex b.toNat]

/-- What `QueryEscape` writes for one character: an ASCII character that need not be escaped is
kept, a space becomes `+`, and each byte of anything else is written as `%XX`. -/
def escapeChar (c : Char) : List Char :=
  if c.toNat < 128 ∧ shouldEscape c = false then [c]
  else if c = ' ' then ['+']
  else (String.utf8EncodeChar c).flatMap escapeByte

/-- Go `url.QueryEscape`. -/
def QueryEscape (s : String) : String := ⟨s.data.flatMap escapeChar⟩

/-- Lexicographic comparison of byte sequences: Go's `<` on strings. -/
def bytesLess : List UInt8 → List UInt8 → Bool
  | _, [] => false
  | [], _ :: _ => true
  | a :: as, b :: bs => a.toNat < b.toNat || (a.toNat == b.toNat && bytesLess as bs)

/-- Go `a <= b` on strings. -/
def stringLE (a b : String) : Prop := bytesLess (bytesOf b) (bytesOf a) = false

instance : DecidableRel stringLE := fun a b =>
  inferInstanceAs (Decidable (bytesLess (bytesOf b) (bytesOf a) = false))

/-- The keys of the map, sorted (`sort.Strings(keys)`). -/
def Values.sortedKeys (v : Values) : List String :=
  (v.map Prod.fst).insertionSort stringLE

/-- The key/value pairs in the order in which `Encode` writes them: keys ascending, and for each
key its values in order. -/
def Values.pairs (v : Values) : List (String × String) :=
  v.sortedKeys.flatMap (fun k => (v.get k).map (fun x => (k, x)))

/-- Go `Values.Encode`: the pairs `key=value`, both query-escaped, separated by `&` (the `&` is
written before a pair whenever the buffer is not empty). -/
def Values.Encode (v : Values) : String :=
  v.pairs.foldl
    (fun buf kv =>
      (if buf.utf8ByteSize > 0 then buf ++ "&" else buf)
        ++ QueryEscape kv.1 ++ "=" ++ QueryEscape kv.2)
    ""

end url

/-! ## Standard library: `net/textproto` and `net/http` -/

namespace http

/-- Go `validHeaderFieldByte`: the token characters of RFC 7230, which are letters, digits and
the fifteen marks listed below (by code: exclamation mark, hash, dollar, percent, ampersand,
apostrophe, asterisk, plus, minus, dot, caret, underscore, backtick, bar, tilde). -/
def validHeaderFieldByte (c : Char) : Bool :=
  (65 ≤ c.toNat ∧ c.toNat ≤ 90) ∨ (97 ≤ c.toNat ∧ c.toNat ≤ 122) ∨
    (48 ≤ c.toNat ∧ c.toNat ≤ 57) ∨
    c.toNat ∈ [33, 35, 36, 37, 38, 39, 42, 43, 45, 46, 94, 95, 96, 124, 126]

/-- The rewriting loop of Go `canonicalMIMEHeaderKey`: upper case for the first letter and for
a letter that follows a dash, lower case for every other letter. -/
def canonLoop : Bool → List Char → List Char
  | _, [] => []
  | upper, c :: t =>
    let c1 :=
      if upper ∧ 97 ≤ c.toNat ∧ c.toNat ≤ 122 then Char.ofNat (c.toNat - 32)
      else if ¬ upper ∧ 65 ≤ c.toNat ∧ c.toNat ≤ 90 then Char.ofNat (c.toNat + 32)
      else c
    c1 :: canonLoop (c1 = '-') t

/-- Go `canonicalMIMEHeaderKey` (the slow path): a key holding a byte that is neither a token
character nor a space, or holding a space, is returned unchanged; any other key is rewritten. -/
def canonicalMIMEHeaderKey (a : List Char) : List Char :=
  if a.any (fun c => !validHeaderFieldByte c && c != ' ') then a
  else if a.any (fun c => c == ' ') then a
  else canonLoop true a

/-- The quick check of Go `CanonicalMIMEHeaderKey`: scan `rest`, return the whole key `s`
unchanged at the first invalid byte or at the end, and take the slow path at the first letter
in the wrong case. -/
def canonScan (s : List Char) : Bool → List Char → List Char
  | _, [] => s
  | upper, c :: t =>
    if !validHeaderFieldByte c then s
    else if upper ∧ 97 ≤ c.toNat ∧ c.toNat ≤ 122 then canonicalMIMEHeaderKey s
    else if ¬ upper ∧ 65 ≤ c.toNat ∧ c.toNat ≤ 90 then canonicalMIMEHeaderKey s
    else canonScan s (c = '-') t

/-- Go `textproto.CanonicalMIMEHeaderKey`. -/
def CanonicalMIMEHeaderKey (s : String) : String := ⟨canonScan s.data true s.data⟩

/-- Go `http.Header`, a `map[string][]string`. -/
abbrev Header := List (String × List String)

/-- Go `Header.Set`: `h[CanonicalMIMEHeaderKey(key)] = []string{value}`. -/
def Header.Set (h : Header) (key value : String) : Header :=
  (CanonicalMIMEHeaderKey key, [value]) ::
    h.filter (fun e => e.1 ≠ CanonicalMIMEHeaderKey key)

/-- Go `Header.Values`: all the values the header carries for `key`, that is
`h[CanonicalMIMEHeaderKey(key)]`. -/
def Header.Values (h : Header) (key : String) : List String :=
  (h.lookup (CanonicalMIMEHeaderKey key)).getD []

end http

/-! ## The package -/

/-- Go `bytes.Buffer`: the bytes not yet read. -/
structure Buffer where
  buf : List UInt8
deriving DecidableEq, Repr

/-- Go `bytes.NewBufferString`. -/
def NewBufferString (s : String) : Buffer := ⟨bytesOf s⟩

/-- Go `bytes.NewBuffer`. -/
def NewBuffer (b : List UInt8) : Buffer := ⟨b⟩

/-- The source's `nopCloser`: a reader with a `Close` that does nothing. -/
structure nopCloser where
  Reader : Buffer
deriving DecidableEq, Repr

/-- The source's `getNopCloser`. -/
def getNopCloser (buf : Buffer) : nopCloser := ⟨buf⟩

/-- Go `http.Request`, the fields the package touches. `Body = none` is the nil body. -/
structure Request where
  Method : String
  URL : Option url.URL
  Header : http.Header
  Body : Option nopCloser
  ContentLength : Int
deriving DecidableEq, Repr

/-- Go `http.Response`, as far as a caller of the package sees it. -/
structure Response where
  StatusCode : Int
  Body : Option (List UInt8)
deriving DecidableEq, Repr

/-- A Go `error` value. `ErrPersistEOF` is `httputil.ErrPersistEOF`. -/
inductive GoError where
  | ErrPersistEOF
  | other (msg : String)
deriving DecidableEq, Repr

/-- A transport connection (`net.Conn`), known by the identity the dialler gave it. -/
structure Conn where
  id : Nat
deriving DecidableEq, Repr

/-- Go `httputil.ClientConn`, wrapping the transport connection it was made from. -/
structure ClientConn where
  c : Conn
deriving DecidableEq, Repr

/-- Go `httputil.NewClientConn(conn, nil)`. -/
def NewClientConn (conn : Conn) : ClientConn := ⟨conn⟩

/-- An effect of the package on the outside world. -/
inductive Event where
  | netDial (network addr : String)
  | tlsDial (network addr : String)
  | verifyHostname (conn : Conn) (host : String)
  | connDo (cc : ClientConn) (req : Request)
  | connClose (cc : ClientConn)
  | print (text : String)
deriving DecidableEq, Repr

/-- The effects performed so far, oldest first. -/
abbrev World := List Event

/-- The reader after `n` more of its bytes have been read. -/
def nopCloser.drain (n : Nat) (c : nopCloser) : nopCloser :=
  ⟨⟨c.Reader.buf.drop n⟩⟩

/-- The request after a send that read `n` bytes of its body: `conn.Do` writes the request to
the connection, reading the body's buffer as it goes, and touches no other field. -/
def Request.afterSend (req : Request) (n : Nat) : Request :=
  { req with Body := req.Body.map (nopCloser.drain n) }

/-- The collaborators outside the package. `Parse` is `url.Parse`; `netDial` is `net.Dial`;
`tlsDial` is `tls.Dial` with a nil configuration; `VerifyHostname` is `(*tls.Conn).VerifyHostname`
(`none` is success); `Do` is `(*httputil.ClientConn).Do`, answering a response and an error,
either of which may be nil, and `DoRead` is the number of bytes of the request body which that
same call of `Do` reads (all of them when the request is written out in full);
`DumpRequest` is `httputil.DumpRequest(req, true)`. -/
structure Env where
  Parse : String → Except GoError url.URL
  netDial : World → String → String → Except GoError Conn
  tlsDial : World → String → String → Except GoError Conn
  VerifyHostname : World → Conn → String → Option GoError
  Do : World → ClientConn → Request → Option Response × Option GoError
  DoRead : World → ClientConn → Request → Nat
  DumpRequest : Request → String

/-- The source's package variable `debugprint`. Nothing in the package assigns it. -/
def debugprint : Bool := false

/-- The source's `hasPort`. -/
def hasPort (s : String) : Bool :=
  decide (strings.LastIndex s ":" > strings.LastIndex s "]")

/-- The address `newConn` dials: the host, with the scheme appended after a colon when the host
has no port (lines 36 to 39 of the source). -/
def dialAddr (u : url.URL) : String :=
  if !hasPort u.Host then u.Host ++ (":" ++ u.Scheme) else u.Host

/-- The source's `newConn`. The `else` branch, which the source comments `https`, runs for
every scheme other than `http`. -/
def newConn (env : Env) (w : World) (u : url.URL) : World × Except GoError ClientConn :=
  let addr := dialAddr u
  if u.Scheme = "http" then
    match env.netDial w "tcp" addr with
    | .error err => (w ++ [Event.netDial "tcp" addr], .error err)
    | .ok conn => (w ++ [Event.netDial "tcp" addr], .ok (NewClientConn conn))
  else
    match env.tlsDial w "tcp" addr with
    | .error err => (w ++ [Event.tlsDial "tcp" addr], .error err)
    | .ok conn =>
      let w1 := w ++ [Event.tlsDial "tcp" addr]
      let h :=
        if hasPort u.Host then
          u.Host.extract ⟨0⟩ ⟨(strings.LastIndex u.Host ":").toNat⟩
        else u.Host
      match env.VerifyHostname w1 conn h with
      | some err => (w1 ++ [Event.verifyHostname conn h], .error err)
      | none => (w1 ++ [Event.verifyHostname conn h], .ok (NewClientConn conn))

/-- What the package-level `getResponse` leaves behind and returns: the world, the request
(whose `URL` field it assigns and whose body the send reads), and the triple connection,
response, error. -/
structure SendResult where
  world : World
  req : Request
  conn : Option ClientConn
  resp : Option Response
  err : Option GoError
deriving DecidableEq

/-- The source's package-level `getResponse`. The request is a pointer shared with the caller:
after `conn.Do(req)` its body holds only the bytes the send did not read. The request logged
with the send is the one handed to `conn.Do`, before any of its body is read. -/
def getResponse (env : Env) (w : World) (rawUrl : String) (req : Request) : SendResult :=
  match env.Parse rawUrl with
  | .error err => ⟨w, req, none, none, some err⟩
  | .ok u =>
    let req1 := { req with URL := some u }
    let w1 := if debugprint then w ++ [Event.print (env.DumpRequest req1)] else w
    match newConn env w1 u with
    | (w2, .error err) => ⟨w2, req1, none, none, some err⟩
    | (w2, .ok conn) =>
      let w3 := w2 ++ [Event.connDo conn req1]
      let req2 := req1.afterSend (env.DoRead w2 conn req1)
      match env.Do w2 conn req1 with
      | (resp, some err) =>
        if err ≠ GoError.ErrPersistEOF then ⟨w3, req2, none, none, some err⟩
        else ⟨w3, req2, some conn, resp, none⟩
      | (resp, none) => ⟨w3, req2, some conn, resp, none⟩

/-- The source's `HttpRequestBuilder`. -/
structure HttpRequestBuilder where
  url : String
  req : Request
  clientConn : Option ClientConn
  params : httplib.url.Values
deriving DecidableEq

/-- The request every factory starts from: `var req http.Request` with the method and an empty
header map assigned. -/
def newRequest (method : String) : Request :=
  { Method := method, URL := none, Header := [], Body := none, ContentLength := 0 }

/-- The source's `Get`. -/
def Get (targeturl : String) : HttpRequestBuilder :=
  { url := targeturl, req := newRequest "GET", clientConn := none, params := [] }

/-- The source's `Post`. -/
def Post (targeturl : String) : HttpRequestBuilder :=
  { url := targeturl, req := newRequest "POST", clientConn := none, params := [] }

/-- The source's `Put`. -/
def Put (targeturl : String) : HttpRequestBuilder :=
  { url := targeturl, req := newRequest "PUT", clientConn := none, params := [] }

/-- The source's `Delete`. -/
def Delete (targeturl : String) : HttpRequestBuilder :=
  { url := targeturl, req := newRequest "DELETE", clientConn := none, params := [] }

/-- The source's `HttpRequestBuilder.Header`. -/
def HttpRequestBuilder.Header (b : HttpRequestBuilder) (key value : String) :
    HttpRequestBuilder :=
  { b with req := { b.req with Header := b.req.Header.Set key value } }

/-- The source's `HttpRequestBuilder.Param`. -/
def HttpRequestBuilder.Param (b : HttpRequestBuilder) (key value : String) :
    HttpRequestBuilder :=
  { b with params := b.params.Set key value }

/-- The argument of `Body`, an `interface{}`: a string, a byte slice, or a value of any other
type. -/
inductive BodyData where
  | str (t : String)
  | bytes (t : List UInt8)
  | other
deriving DecidableEq, Repr

/-- The source's `HttpRequestBuilder.Body`. -/
def HttpRequestBuilder.Body (b : HttpRequestBuilder) (data : BodyData) : HttpRequestBuilder :=
  match data with
  | .str t =>
    { b with req := { b.req with
        Body := some (getNopCloser (NewBufferString t)), ContentLength := t.utf8ByteSize } }
  | .bytes t =>
    { b with req := { b.req with
        Body := some (getNopCloser (NewBuffer t)), ContentLength := t.length } }
  | .other => b

/-- Lines 125 to 137 of the source's `HttpRequestBuilder.getResponse`: the parameters go to the
URL of a GET, or to the body of a POST that has none. -/
def HttpRequestBuilder.encodeParams (b : HttpRequestBuilder) : HttpRequestBuilder :=
  let paramBody := b.params.Encode
  if b.req.Method = "GET" ∧ paramBody.utf8ByteSize > 0 then
    if strings.Index b.url "?" ≠ -1 then
      { b with url := b.url ++ ("&" ++ paramBody) }
    else
      { b with url := b.url ++ "?" ++ paramBody }
  else if b.req.Method = "POST" ∧ b.req.Body = none ∧ paramBody.utf8ByteSize > 0 then
    let b1 := b.Header "Content-Type" "application/x-www-form-urlencoded"
    { b1 with req := { b1.req with
        Body := some ⟨NewBufferString paramBody⟩, ContentLength := paramBody.utf8ByteSize } }
  else b

/-- The source's `HttpRequestBuilder.getResponse`: the world and the builder afterwards, and
the response and error returned. -/
def HttpRequestBuilder.getResponse (env : Env) (w : World) (b : HttpRequestBuilder) :
    World × HttpRequestBuilder × Option Response × Option GoError :=
  let b1 := b.encodeParams
  let r := httplib.getResponse env w b1.url b1.req
  (r.world, { b1 with req := r.req, clientConn := r.conn }, r.resp, r.err)

/-- The source's `HttpRequestBuilder.AsResponse`. -/
def HttpRequestBuilder.AsResponse (env : Env) (w : World) (b : HttpRequestBuilder) :
    World × HttpRequestBuilder × Option Response × Option GoError :=
  b.getResponse env w

/-- The source's `HttpRequestBuilder.Close`. -/
def HttpRequestBuilder.Close (w : World) (b : HttpRequestBuilder) : World :=
  match b.clientConn with
  | some cc => w ++ [Event.connClose cc]
  | none => w

/-- A configuration call on a builder. -/
inductive ConfigCall where
  | Header (key value : String)
  | Param (key value : String)
  | Body (data : BodyData)
deriving DecidableEq, Repr

/-- One configuration call applied to a builder. -/
def HttpRequestBuilder.call (b : HttpRequestBuilder) : ConfigCall → HttpRequestBuilder
  | .Header k v => b.Header k v
  | .Param k v => b.Param k v
  | .Body d => b.Body d

/-- A chain of configuration calls applied to a builder, first call first. -/
def HttpRequestBuilder.chain (b : HttpRequestBuilder) (cs : List ConfigCall) :
    HttpRequestBuilder :=
  cs.foldl HttpRequestBuilder.call b

/-- Whether a configuration call assigns the request body: `Body` with a string or a byte
slice. `Body` with a value of any other type assigns nothing. -/
def ConfigCall.setsBody : ConfigCall → Bool
  | .Body (.str _) => true
  | .Body (.bytes _) => true
  | _ => false

/-- The bytes `Body` stores for its argument, when it stores any. -/
def BodyData.content : BodyData → Option (List UInt8)
  | .str t => some (bytesOf t)
  | .bytes t => some t
  | .other => none

/-- The outcome of a finalize in which lines 139 to 141 of the source run with the URL `rawUrl`
and the request `req`: the package-level `getResponse` is called with them, the builder keeps
`rawUrl`, the request and the connection, and the response and error are returned. -/
def HttpRequestBuilder.finalizeWith (env : Env) (w : World) (b : HttpRequestBuilder)
    (rawUrl : String) (req : Request) :
    World × HttpRequestBuilder × Option Response × Option GoError :=
  let r := httplib.getResponse env w rawUrl req
  (r.world, { b with url := rawUrl, req := r.req, clientConn := r.conn }, r.resp, r.err)

/-- The world and the builder after `n` terminal operations in a row, each one a call of
`HttpRequestBuilder.getResponse`, with no configuration call in between. -/
def finalizeTimes (env : Env) : Nat → World × HttpRequestBuilder → World × HttpRequestBuilder
  | 0, s => s
  | n + 1, s =>
    let s1 := finalizeTimes env n s
    let r := s1.2.getResponse env s1.1
    (r.1, r.2.1)

/-- The string `x` written `n` times. -/
def repeatString (x : String) : Nat → String
  | 0 => ""
  | n + 1 => repeatString x n ++ x

/-- The length in bytes of a list of characters. -/
def byteLen : List Char → Int
  | [] => 0
  | c :: t => byteLen t + c.utf8Size

/-- The URL a GET builder made with `u` holds after `n` terminal operations, when its
parameters encode to `p`: `u` at first, then `u`, the separator, and `n` copies of `p` with `&`
between them. -/
def urlAfter (u p : String) : Nat → String
  | 0 => u
  | n + 1 => u ++ (if '?' ∈ u.data then "&" else "?") ++ p ++ repeatString ("&" ++ p) n

/-- The addresses dialled in a log, oldest first. -/
def dialled : World → List String
  | [] => []
  | Event.netDial _ addr :: t => addr :: dialled t
  | Event.tlsDial _ addr :: t => addr :: dialled t
  | _ :: t => dialled t

/-- The number of bytes a request body still holds (`0` for the nil body). -/
def Request.unread (req : Request) : Nat :=
  match req.Body with
  | some c => c.Reader.buf.length
  | none => 0

/-- A sample environment: every URL parses to `http://example.test/`, every dial succeeds with
a connection numbered by the length of the log, certificates verify, and every request is
written out in full, its whole body read, and answered `200` with an empty body. -/
def sampleEnv : Env where
  Parse := fun _ => .ok ⟨"http", "", "example.test", "/", "", ""⟩
  netDial := fun w _ _ => .ok ⟨w.length⟩
  tlsDial := fun w _ _ => .ok ⟨w.length⟩
  VerifyHostname := fun _ _ _ => none
  Do := fun _ _ _ => (some ⟨200, some []⟩, none)
  DoRead := fun _ _ req => req.unread
  DumpRequest := fun _ => ""

/-- The sample environment with diallers that refuse every connection and report the address
they were asked to dial. -/
def refuseEnv : Env :=
  { sampleEnv with
    netDial := fun _ _ addr => .error (GoError.other addr)
    tlsDial := fun _ _ addr => .error (GoError.other addr) }

/-- The sample environment with a send that answers the response together with
`httputil.ErrPersistEOF`. -/
def eofEnv : Env :=
  { sampleEnv with Do := fun _ _ _ => (some ⟨200, some []⟩, some GoError.ErrPersistEOF) }

/-! ## Theorems -/

/-! ### Strings -/

theorem utf8ByteSize_go_eq_zero (l : List Char) : String.utf8ByteSize.go l = 0 ↔ l = [] := by
  cases l with
  | nil => simp [String.utf8ByteSize.go]
  | cons c t =>
    have := Char.utf8Size_pos c
    simp [String.utf8ByteSize.go]
    omega

/-- `len(s) > 0` says that `s` is not the empty string. -/
theorem utf8ByteSize_pos_iff (s : String) : s.utf8ByteSize > 0 ↔ s ≠ "" := by
  cases s with
  | mk l =>
    have h := utf8ByteSize_go_eq_zero l
    have h2 : (String.mk l ≠ "") ↔ l ≠ [] := by
      constructor
      · intro h3 h4; exact h3 (by rw [h4])
      · intro h3 h4; exact h3 (congrArg String.data h4)
    rw [h2]
    show String.utf8ByteSize.go l > 0 ↔ _
    rw [gt_iff_lt, Nat.pos_iff_ne_zero, ne_eq, h]

theorem indexFrom_ge (sub l : List Char) : -1 ≤ strings.indexFrom sub l := by
  induction l with
  | nil => simp only [strings.indexFrom]; split <;> omega
  | cons c t ih =>
    simp only [strings.indexFrom]
    split
    · omega
    · split <;> omega

theorem indexFrom_single (x : Char) (l : List Char) :
    strings.indexFrom [x] l ≠ -1 ↔ x ∈ l := by
  induction l with
  | nil => simp [strings.indexFrom]
  | cons c t ih =>
    have hge := indexFrom_ge [x] t
    simp only [strings.indexFrom, strings.startsWith, Bool.and_true, beq_iff_eq, List.mem_cons]
    by_cases hxc : x = c
    · simp [hxc]
    · simp only [hxc, if_false, false_or]
      rw [← ih]
      split
      · simp_all
      · constructor
        · intro _; assumption
        · intro _; omega

/-- `strings.Index(s, "?") != -1` says that `s` contains a `?`. -/
theorem Index_question (s : String) : strings.Index s "?" ≠ -1 ↔ '?' ∈ s.data :=
  indexFrom_single '?' s.data

/-! ### Configuration calls keep the method, the URL and the absent connection -/

theorem call_method (b : HttpRequestBuilder) (c : ConfigCall) :
    (b.call c).req.Method = b.req.Method := by
  cases c with
  | Header k v => rfl
  | Param k v => rfl
  | Body d => cases d <;> rfl

theorem call_url (b : HttpRequestBuilder) (c : ConfigCall) : (b.call c).url = b.url := by
  cases c with
  | Header k v => rfl
  | Param k v => rfl
  | Body d => cases d <;> rfl

theorem call_clientConn (b : HttpRequestBuilder) (c : ConfigCall) :
    (b.call c).clientConn = b.clientConn := by
  cases c with
  | Header k v => rfl
  | Param k v => rfl
  | Body d => cases d <;> rfl

theorem chain_method (cs : List ConfigCall) (b : HttpRequestBuilder) :
    (b.chain cs).req.Method = b.req.Method := by
  induction cs generalizing b with
  | nil => rfl
  | cons c t ih =>
    show ((b.call c).chain t).req.Method = _
    rw [ih, call_method]

theorem chain_url (cs : List ConfigCall) (b : HttpRequestBuilder) :
    (b.chain cs).url = b.url := by
  induction cs generalizing b with
  | nil => rfl
  | cons c t ih =>
    show ((b.call c).chain t).url = _
    rw [ih, call_url]

theorem chain_clientConn (cs : List ConfigCall) (b : HttpRequestBuilder) :
    (b.chain cs).clientConn = b.clientConn := by
  induction cs generalizing b with
  | nil => rfl
  | cons c t ih =>
    show ((b.call c).chain t).clientConn = _
    rw [ih, call_clientConn]

/-! ### What finalize does with the parameters -/

theorem getResponse_eq_finalizeWith (env : Env) (w : World) (b : HttpRequestBuilder) :
    b.getResponse env w = b.finalizeWith env w b.encodeParams.url b.encodeParams.req := by
  unfold HttpRequestBuilder.getResponse HttpRequestBuilder.finalizeWith
    HttpRequestBuilder.encodeParams
  simp only
  split
  · split <;> rfl
  · split <;> rfl

theorem encodeParams_get_empty (b : HttpRequestBuilder) (hm : b.req.Method = "GET")
    (hp : b.params.Encode = "") : b.encodeParams = b := by
  unfold HttpRequestBuilder.encodeParams
  have h0 : ¬ ("".utf8ByteSize > 0) := by decide
  simp only [hm, hp, h0, and_false, if_false, String.reduceEq, false_and]

theorem encodeParams_get_query (b : HttpRequestBuilder) (hm : b.req.Method = "GET")
    (hp : b.params.Encode ≠ "") (hq : '?' ∈ b.url.data) :
    b.encodeParams = { b with url := b.url ++ "&" ++ b.params.Encode } := by
  unfold HttpRequestBuilder.encodeParams
  have h1 := (utf8ByteSize_pos_iff _).2 hp
  have h2 := (Index_question b.url).2 hq
  simp only [hm, h1, h2, and_self, if_true, ne_eq, not_false_eq_true, String.append_assoc]

theorem encodeParams_get_noquery (b : HttpRequestBuilder) (hm : b.req.Method = "GET")
    (hp : b.params.Encode ≠ "") (hq : '?' ∉ b.url.data) :
    b.encodeParams = { b with url := b.url ++ "?" ++ b.params.Encode } := by
  unfold HttpRequestBuilder.encodeParams
  have h1 := (utf8ByteSize_pos_iff _).2 hp
  have h2 : ¬ (strings.Index b.url "?" ≠ -1) := fun h => hq ((Index_question b.url).1 h)
  simp only [hm, h1, h2, and_self, if_true, if_false]

theorem encodeParams_other (b : HttpRequestBuilder) (hg : b.req.Method ≠ "GET")
    (hp : b.req.Method ≠ "POST") : b.encodeParams = b := by
  unfold HttpRequestBuilder.encodeParams
  simp [hg, hp]

theorem drain_zero (body : Option nopCloser) : body.map (nopCloser.drain 0) = body := by
  cases body with
  | none => rfl
  | some c => rfl

/-- The send step assigns the request's URL and reads from its body; the method, the headers
and the content length are what they were, and the body holds what the send left unread. -/
theorem getResponse_req_frame (env : Env) (w : World) (rawUrl : String) (req : Request) :
    (getResponse env w rawUrl req).req.Method = req.Method ∧
    (getResponse env w rawUrl req).req.Header = req.Header ∧
    (getResponse env w rawUrl req).req.ContentLength = req.ContentLength ∧
    ∃ n, (getResponse env w rawUrl req).req.Body = req.Body.map (nopCloser.drain n) := by
  unfold getResponse
  simp only [debugprint, Bool.false_eq_true, if_false]
  split
  · exact ⟨rfl, rfl, rfl, 0, (drain_zero _).symm⟩
  · split
    · exact ⟨rfl, rfl, rfl, 0, (drain_zero _).symm⟩
    · split
      · split
        · exact ⟨rfl, rfl, rfl, _, rfl⟩
        · exact ⟨rfl, rfl, rfl, _, rfl⟩
      · exact ⟨rfl, rfl, rfl, _, rfl⟩

/-- When the URL parses and the connection opens, the request after the send step is the one
handed to `conn.Do` with the bytes that `conn.Do` read taken off its body. -/
theorem getResponse_req_after_send (env : Env) (w : World) (rawUrl : String) (req : Request)
    (u : url.URL) (w2 : World) (cc : ClientConn) (hP : env.Parse rawUrl = .ok u)
    (hN : newConn env w u = (w2, .ok cc)) :
    (getResponse env w rawUrl req).req =
      ({ req with URL := some u } : Request).afterSend
        (env.DoRead w2 cc { req with URL := some u }) := by
  unfold getResponse
  simp only [debugprint, Bool.false_eq_true, if_false, hP, hN]
  split
  · split <;> rfl
  · rfl

/-- When the URL does not parse, the request is left exactly as it was. -/
theorem getResponse_req_parse_error (env : Env) (w : World) (rawUrl : String) (req : Request)
    (e : GoError) (hP : env.Parse rawUrl = .error e) :
    (getResponse env w rawUrl req).req = req := by
  unfold getResponse
  simp only [hP]

/-- A send that writes the request out in full leaves the body empty: after finalizing
`Put("http://example.test/item").Body("payload")` in the sample environment the request's body
has no unread byte, while the request logged with the send carried all of `payload`. -/
theorem getResponse_drains_body :
    (((Put "http://example.test/item").Body (BodyData.str "payload")).getResponse
        sampleEnv []).2.1.req.Body = some ⟨⟨[]⟩⟩ ∧
    (((Put "http://example.test/item").Body (BodyData.str "payload")).getResponse
        sampleEnv []).1 =
      [Event.netDial "tcp" "example.test:http",
       Event.connDo ⟨⟨0⟩⟩
        { Method := "PUT",
          URL := some ⟨"http", "", "example.test", "/", "", ""⟩,
          Header := [],
          Body := some ⟨⟨bytesOf "payload"⟩⟩,
          ContentLength := 7 }] := by
  constructor <;> decide

/-! ### GET: the parameters go to the URL -/

/-- C1: for a builder made by `Get u` and then configured by any chain of calls, with `p` the
encoding of its parameters: when `p` is not empty, finalize hands to the send step the URL
`u + "?" + p` if `u` has no `?` and `u + "&" + p` if it has one; when `p` is empty it hands `u`
itself. In every case the request handed over is the builder's request as configured, with its
headers, body and content length as they were. After the call the headers and the content
length are still the same, and the body holds the bytes the send left unread. -/
theorem get_finalize_url (env : Env) (w : World) (u : String) (cs : List ConfigCall) :
    (((Get u).chain cs).params.Encode ≠ "" → '?' ∉ u.data →
      ((Get u).chain cs).getResponse env w =
        ((Get u).chain cs).finalizeWith env w
          (u ++ "?" ++ ((Get u).chain cs).params.Encode) ((Get u).chain cs).req) ∧
    (((Get u).chain cs).params.Encode ≠ "" → '?' ∈ u.data →
      ((Get u).chain cs).getResponse env w =
        ((Get u).chain cs).finalizeWith env w
          (u ++ "&" ++ ((Get u).chain cs).params.Encode) ((Get u).chain cs).req) ∧
    (((Get u).chain cs).params.Encode = "" →
      ((Get u).chain cs).getResponse env w =
        ((Get u).chain cs).finalizeWith env w u ((Get u).chain cs).req) ∧
    (((Get u).chain cs).getResponse env w).2.1.req.Header = ((Get u).chain cs).req.Header ∧
    (((Get u).chain cs).getResponse env w).2.1.req.ContentLength =
      ((Get u).chain cs).req.ContentLength ∧
    ∃ n, (((Get u).chain cs).getResponse env w).2.1.req.Body =
      ((Get u).chain cs).req.Body.map (nopCloser.drain n) := by
  have hm : ((Get u).chain cs).req.Method = "GET" := chain_method cs (Get u)
  have hu : ((Get u).chain cs).url = u := chain_url cs (Get u)
  have hreq : ((Get u).chain cs).encodeParams.req = ((Get u).chain cs).req := by
    by_cases hp : ((Get u).chain cs).params.Encode = ""
    · rw [encodeParams_get_empty _ hm hp]
    · by_cases hq : '?' ∈ ((Get u).chain cs).url.data
      · rw [encodeParams_get_query _ hm hp hq]
      · rw [encodeParams_get_noquery _ hm hp hq]
  refine ⟨?_, ?_, ?_, ?_⟩
  · intro hp hq
    rw [getResponse_eq_finalizeWith, encodeParams_get_noquery _ hm hp (by rw [hu]; exact hq), hu]
  · intro hp hq
    rw [getResponse_eq_finalizeWith, encodeParams_get_query _ hm hp (by rw [hu]; exact hq), hu]
  · intro hp
    rw [getResponse_eq_finalizeWith, encodeParams_get_empty _ hm hp, hu]
  · rw [getResponse_eq_finalizeWith, hreq]
    exact (getResponse_req_frame env w _ _).2

/-- C1 at `Get("http://example.test/api").Param("q","1")`, whose URL has no `?`. -/
theorem get_finalize_url_witness :
    ((Get "http://example.test/api").chain [ConfigCall.Param "q" "1"]).getResponse sampleEnv [] =
      ((Get "http://example.test/api").chain [ConfigCall.Param "q" "1"]).finalizeWith
        sampleEnv [] "http://example.test/api?q=1"
        ((Get "http://example.test/api").chain [ConfigCall.Param "q" "1"]).req :=
  (get_finalize_url sampleEnv [] "http://example.test/api" [ConfigCall.Param "q" "1"]).1
    (by decide) (by decide)

/-! ### PUT and DELETE: the parameters are dropped -/

/-- C9: for a builder made by `Put u` or `Delete u` and then configured by any chain of calls
(any parameters, headers and body), finalize hands to the send step the URL `u` itself and the
builder's request as configured, with its headers, body and content length as they were: the
parameters reach neither the query string nor the body. After the call the URL, the headers
and the content length are still the same, and the body holds the bytes the send left
unread. -/
theorem put_delete_drop_params (env : Env) (w : World) (u : String) (cs : List ConfigCall)
    (b : HttpRequestBuilder) (hb : b = (Put u).chain cs ∨ b = (Delete u).chain cs) :
    b.getResponse env w = b.finalizeWith env w u b.req ∧
    (b.getResponse env w).2.1.url = u ∧
    (b.getResponse env w).2.1.req.Header = b.req.Header ∧
    (b.getResponse env w).2.1.req.ContentLength = b.req.ContentLength ∧
    ∃ n, (b.getResponse env w).2.1.req.Body = b.req.Body.map (nopCloser.drain n) := by
  have hm : b.req.Method ≠ "GET" ∧ b.req.Method ≠ "POST" := by
    rcases hb with hb | hb
    · rw [hb, chain_method]
      exact ⟨(by decide : "PUT" ≠ "GET"), (by decide : "PUT" ≠ "POST")⟩
    · rw [hb, chain_method]
      exact ⟨(by decide : "DELETE" ≠ "GET"), (by decide : "DELETE" ≠ "POST")⟩
  have hu : b.url = u := by
    rcases hb with hb | hb
    · rw [hb, chain_url]; rfl
    · rw [hb, chain_url]; rfl
  have he : b.encodeParams = b := encodeParams_other b hm.1 hm.2
  have hf : b.getResponse env w = b.finalizeWith env w u b.req := by
    rw [getResponse_eq_finalizeWith, he, hu]
  refine ⟨hf, ?_, ?_⟩
  · rw [hf]; rfl
  · rw [hf]
    exact (getResponse_req_frame env w _ _).2

/-- C9 at `Put("http://example.test/item").Param("a","x").Body("payload")`. -/
theorem put_delete_drop_params_witness :
    ((Put "http://example.test/item").chain
        [ConfigCall.Param "a" "x", ConfigCall.Body (BodyData.str "payload")]).getResponse
        sampleEnv [] =
      ((Put "http://example.test/item").chain
        [ConfigCall.Param "a" "x", ConfigCall.Body (BodyData.str "payload")]).finalizeWith
        sampleEnv [] "http://example.test/item"
        ((Put "http://example.test/item").chain
          [ConfigCall.Param "a" "x", ConfigCall.Body (BodyData.str "payload")]).req :=
  (put_delete_drop_params sampleEnv [] "http://example.test/item"
    [ConfigCall.Param "a" "x", ConfigCall.Body (BodyData.str "payload")] _ (Or.inl rfl)).1

/-! ### Close -/

/-- C7: a builder returned by `Get`, `Post`, `Put` or `Delete` and then changed only by
`Header`, `Param` and `Body` calls holds no connection, and `Close` on it leaves the world as
it was (no effect on any connection; `Close` is a total function, so it does not fail). On a
builder that holds a connection, `Close` performs exactly one effect, the close of that
connection. -/
theorem close_releases_held_connection (u : String) (cs : List ConfigCall) (w : World) :
    (∀ b : HttpRequestBuilder,
      b = (Get u).chain cs ∨ b = (Post u).chain cs ∨ b = (Put u).chain cs ∨
        b = (Delete u).chain cs →
      b.clientConn = none ∧ b.Close w = w) ∧
    (∀ (b : HttpRequestBuilder) (cc : ClientConn),
      b.clientConn = some cc → b.Close w = w ++ [Event.connClose cc]) := by
  constructor
  · intro b hb
    have hc : b.clientConn = none := by
      rcases hb with hb | hb | hb | hb <;> rw [hb, chain_clientConn] <;> rfl
    exact ⟨hc, by simp [HttpRequestBuilder.Close, hc]⟩
  · intro b cc hc
    simp [HttpRequestBuilder.Close, hc]

/-- C7 at `Post("http://example.test/submit").Header("X","1").Param("a","x")`, which holds no
connection, and at the same builder holding connection 7. -/
theorem close_releases_held_connection_witness :
    (((Post "http://example.test/submit").chain
        [ConfigCall.Header "X" "1", ConfigCall.Param "a" "x"]).clientConn = none ∧
      ((Post "http://example.test/submit").chain
        [ConfigCall.Header "X" "1", ConfigCall.Param "a" "x"]).Close [] = []) ∧
    ({ (Post "http://example.test/submit") with clientConn := some ⟨⟨7⟩⟩ } :
      HttpRequestBuilder).Close [] = [Event.connClose ⟨⟨7⟩⟩] :=
  ⟨(close_releases_held_connection "http://example.test/submit"
      [ConfigCall.Header "X" "1", ConfigCall.Param "a" "x"] []).1 _ (Or.inr (Or.inl rfl)),
   (close_releases_held_connection "http://example.test/submit"
      [ConfigCall.Header "X" "1", ConfigCall.Param "a" "x"] []).2 _ ⟨⟨7⟩⟩ rfl⟩

/-! ### Errors of the send step -/

/-- C6: the package-level `getResponse` returns an error exactly when the URL does not parse,
or `newConn` fails, or the send fails with an error other than `ErrPersistEOF`; with an error
it returns neither a connection nor a response. When the send reports `ErrPersistEOF` the
connection and the response are returned with a nil error. When the URL does not parse the
world is left as it was, so no connection is opened, and the parse error is the one returned. -/
theorem getResponse_error_iff (env : Env) (w : World) (rawUrl : String) (req : Request) :
    ((getResponse env w rawUrl req).err ≠ none ↔
      (∃ e, env.Parse rawUrl = .error e) ∨
      (∃ u w2 e, env.Parse rawUrl = .ok u ∧ newConn env w u = (w2, .error e)) ∨
      (∃ u w2 cc resp e, env.Parse rawUrl = .ok u ∧ newConn env w u = (w2, .ok cc) ∧
        env.Do w2 cc { req with URL := some u } = (resp, some e) ∧
        e ≠ GoError.ErrPersistEOF)) ∧
    ((getResponse env w rawUrl req).err ≠ none →
      (getResponse env w rawUrl req).conn = none ∧
      (getResponse env w rawUrl req).resp = none) ∧
    (∀ u w2 cc resp, env.Parse rawUrl = .ok u → newConn env w u = (w2, .ok cc) →
      env.Do w2 cc { req with URL := some u } = (resp, some GoError.ErrPersistEOF) →
      (getResponse env w rawUrl req).conn = some cc ∧
      (getResponse env w rawUrl req).resp = resp ∧
      (getResponse env w rawUrl req).err = none) ∧
    (∀ e, env.Parse rawUrl = .error e →
      (getResponse env w rawUrl req).world = w ∧
      dialled (getResponse env w rawUrl req).world = dialled w ∧
      (getResponse env w rawUrl req).err = some e) := by
  unfold getResponse
  simp only [debugprint, Bool.false_eq_true, if_false]
  cases hP : env.Parse rawUrl with
  | error e => simp
  | ok u =>
    rcases hN : newConn env w u with ⟨w2, e | cc⟩
    · simp only [hN]
      refine ⟨?_, ?_, ?_, ?_⟩
      · exact ⟨fun _ => Or.inr (Or.inl ⟨u, w2, e, rfl, hN⟩), fun _ => by simp⟩
      · simp
      · intro u1 w3 cc1 resp1 h1 h2 h3
        cases h1
        rw [hN] at h2
        cases h2
      · intro e1 h1
        cases h1
    · rcases hD : env.Do w2 cc { req with URL := some u } with ⟨resp, _ | e⟩
      · simp only [hN, hD]
        refine ⟨?_, ?_, ?_, ?_⟩
        · constructor
          · intro h
            exact absurd rfl h
          · rintro (⟨e, h⟩ | ⟨u1, w3, e1, h1, h2⟩ | ⟨u1, w3, cc1, resp1, e1, h1, h2, h3, h4⟩)
            · cases h
            · cases h1
              rw [hN] at h2
              cases h2
            · cases h1
              rw [hN] at h2
              cases h2
              rw [hD] at h3
              cases h3
        · simp
        · intro u1 w3 cc1 resp1 h1 h2 h3
          cases h1
          rw [hN] at h2
          cases h2
          rw [hD] at h3
          cases h3
        · intro e1 h1
          cases h1
      · simp only [hN, hD]
        by_cases he : e = GoError.ErrPersistEOF
        · subst he
          simp only [ne_eq, not_true_eq_false, if_false]
          refine ⟨?_, ?_, ?_, ?_⟩
          · constructor
            · intro h
              exact h.elim
            · rintro (⟨e, h⟩ | ⟨u1, w3, e1, h1, h2⟩ | ⟨u1, w3, cc1, resp1, e1, h1, h2, h3, h4⟩)
              · cases h
              · cases h1
                rw [hN] at h2
                cases h2
              · cases h1
                rw [hN] at h2
                cases h2
                rw [hD] at h3
                cases h3
                exact absurd rfl h4
          · simp
          · intro u1 w3 cc1 resp1 h1 h2 h3
            cases h1
            rw [hN] at h2
            cases h2
            rw [hD] at h3
            cases h3
            simp
          · intro e1 h1
            cases h1
        · simp only [ne_eq, he, not_false_eq_true, if_true]
          refine ⟨?_, ?_, ?_, ?_⟩
          · exact ⟨fun _ => Or.inr (Or.inr ⟨u, w2, cc, resp, e, rfl, hN, hD, he⟩),
              fun _ => by simp⟩
          · simp
          · intro u1 w3 cc1 resp1 h1 h2 h3
            cases h1
            rw [hN] at h2
            cases h2
            rw [hD] at h3
            cases h3
            exact absurd rfl he
          · intro e1 h1
            cases h1

/-- C6 at a send that reports `ErrPersistEOF`: the connection and the response come back with a
nil error. -/
theorem getResponse_error_iff_witness :
    (getResponse eofEnv [] "http://example.test/" (newRequest "GET")).conn = some ⟨⟨0⟩⟩ ∧
    (getResponse eofEnv [] "http://example.test/" (newRequest "GET")).resp =
      some ⟨200, some []⟩ ∧
    (getResponse eofEnv [] "http://example.test/" (newRequest "GET")).err = none :=
  (getResponse_error_iff eofEnv [] "http://example.test/" (newRequest "GET")).2.2.1
    ⟨"http", "", "example.test", "/", "", ""⟩
    [Event.netDial "tcp" "example.test:http"] ⟨⟨0⟩⟩ (some ⟨200, some []⟩) rfl rfl rfl

/-! ### Maps: `Set` is last-write-wins -/

theorem lookup_filter_ne (l : List (String × List String)) (k a : String) (h : k ≠ a) :
    List.lookup k (l.filter (fun e => e.1 ≠ a)) = List.lookup k l := by
  induction l with
  | nil => rfl
  | cons e t ih =>
    obtain ⟨key, val⟩ := e
    by_cases hk : key = a
    · subst hk
      have hne : (k == key) = false := by simpa using h
      simpa [List.filter, List.lookup, hne] using ih
    · by_cases hkk : k = key
      · subst hkk
        simp [List.filter, List.lookup, hk]
      · have hne : (k == key) = false := by simpa using hkk
        simpa [List.filter, List.lookup, hk, hne] using ih

theorem Values_Set_lookup_self (v : url.Values) (k x : String) :
    List.lookup k (url.Values.Set v k x) = some [x] := by
  simp [url.Values.Set, List.lookup]

theorem Values_Set_lookup_ne (v : url.Values) (k x k1 : String) (h : k1 ≠ k) :
    List.lookup k1 (url.Values.Set v k x) = List.lookup k1 v := by
  have hne : (k1 == k) = false := by simpa using h
  simp only [url.Values.Set, List.lookup, hne]
  exact lookup_filter_ne v k1 k h

theorem keys_Set_count (v : url.Values) (k x : String) :
    ((url.Values.Set v k x).map Prod.fst).count k = 1 := by
  have h0 : ((v.filter (fun e => e.1 ≠ k)).map Prod.fst).count k = 0 := by
    rw [List.count_eq_zero]
    intro hmem
    rw [List.mem_map] at hmem
    obtain ⟨e, he, hek⟩ := hmem
    rw [List.mem_filter] at he
    simp [hek] at he
  simpa [url.Values.Set, List.count_cons] using h0

theorem pairs_filter_key (g : String → List String) (k : String) (l : List String) :
    (l.flatMap (fun a => (g a).map (fun x => (a, x)))).filter (fun kv => kv.1 = k) =
      (List.replicate (l.count k) k).flatMap (fun a => (g a).map (fun x => (a, x))) := by
  induction l with
  | nil => rfl
  | cons a t ih =>
    rw [List.flatMap_cons, List.filter_append, ih]
    by_cases hak : a = k
    · subst hak
      have h1 : ((g a).map (fun x => (a, x))).filter (fun kv => kv.1 = a) =
          (g a).map (fun x => (a, x)) := by
        rw [List.filter_eq_self]
        intro kv hkv
        rw [List.mem_map] at hkv
        obtain ⟨x, _, hx⟩ := hkv
        simp [← hx]
      rw [h1, List.count_cons_self, List.replicate_succ, List.flatMap_cons]
    · have h1 : ((g a).map (fun x => (a, x))).filter (fun kv => kv.1 = k) = [] := by
        rw [List.filter_eq_nil_iff]
        intro kv hkv
        rw [List.mem_map] at hkv
        obtain ⟨x, _, hx⟩ := hkv
        simp [← hx, hak]
      rw [h1, List.count_cons_of_ne (Ne.symm hak), List.nil_append]

theorem sortedKeys_count (v : url.Values) (k : String) :
    v.sortedKeys.count k = (v.map Prod.fst).count k :=
  (List.perm_insertionSort url.stringLE (v.map Prod.fst)).count_eq k

/-- C5: `Param` is last-write-wins per key. After `Param(k, v1)` and then `Param(k, v2)` on any
builder, the parameter map binds `k` to exactly the one value `v2`, the binding of every other
key is what it was, and of the pairs that `Encode` writes exactly one has the key `k`, namely
`(k, v2)`. In particular finalizing `Get("http://example.test/api").Param("q","1").Param("q","2")`
hands the URL `http://example.test/api?q=2` to the send step. -/
theorem param_last_write_wins (b : HttpRequestBuilder) (k v1 v2 : String) (env : Env)
    (w : World) :
    List.lookup k ((b.Param k v1).Param k v2).params = some [v2] ∧
    (∀ k1, k1 ≠ k → List.lookup k1 ((b.Param k v1).Param k v2).params =
      List.lookup k1 b.params) ∧
    ((b.Param k v1).Param k v2).params.pairs.filter (fun kv => kv.1 = k) = [(k, v2)] ∧
    (((Get "http://example.test/api").Param "q" "1").Param "q" "2").getResponse env w =
      (((Get "http://example.test/api").Param "q" "1").Param "q" "2").finalizeWith env w
        "http://example.test/api?q=2"
        (((Get "http://example.test/api").Param "q" "1").Param "q" "2").req := by
  refine ⟨?_, ?_, ?_, ?_⟩
  · exact Values_Set_lookup_self _ k v2
  · intro k1 h
    show List.lookup k1 (url.Values.Set (url.Values.Set b.params k v1) k v2) = _
    rw [Values_Set_lookup_ne _ _ _ _ h, Values_Set_lookup_ne _ _ _ _ h]
  · show (url.Values.pairs (url.Values.Set (url.Values.Set b.params k v1) k v2)).filter _ = _
    unfold url.Values.pairs
    rw [pairs_filter_key, sortedKeys_count, keys_Set_count]
    simp [url.Values.get, Values_Set_lookup_self]
  · rw [getResponse_eq_finalizeWith]
    rfl

/-- C5 on the key `q` for a key `r` other than `q`: its binding is what it was. -/
theorem param_last_write_wins_witness :
    List.lookup "r" (((Get "http://example.test/api").Param "q" "1").Param "q" "2").params =
      List.lookup "r" (Get "http://example.test/api").params :=
  (param_last_write_wins (Get "http://example.test/api") "q" "1" "2" sampleEnv []).2.1 "r"
    (by decide)

/-! ### The order of the keys in `Encode` -/

theorem bytesLess_nil_right (z : List UInt8) : url.bytesLess z [] = false := by
  cases z <;> rfl

theorem bytesLess_total (x y : List UInt8) :
    url.bytesLess y x = false ∨ url.bytesLess x y = false := by
  induction x generalizing y with
  | nil => exact Or.inl (bytesLess_nil_right y)
  | cons a as ih =>
    cases y with
    | nil => exact Or.inr (bytesLess_nil_right _)
    | cons b bs =>
      simp only [url.bytesLess, Bool.or_eq_false_iff, Bool.and_eq_false_iff,
        decide_eq_false_iff_not, beq_eq_false_iff_ne, ne_eq]
      by_cases hab : a.toNat < b.toNat
      · left
        exact ⟨by omega, Or.inl (by omega)⟩
      · by_cases hba : b.toNat < a.toNat
        · right
          exact ⟨by omega, Or.inl (by omega)⟩
        · rcases ih bs with h | h
          · left
            exact ⟨hba, Or.inr h⟩
          · right
            exact ⟨hab, Or.inr h⟩

theorem bytesLess_trans (x y z : List UInt8) (h1 : url.bytesLess y x = false)
    (h2 : url.bytesLess z y = false) : url.bytesLess z x = false := by
  induction x generalizing y z with
  | nil => exact bytesLess_nil_right z
  | cons a as ih =>
    cases y with
    | nil => simp [url.bytesLess] at h1
    | cons b bs =>
      cases z with
      | nil => simp [url.bytesLess] at h2
      | cons c cs =>
        simp only [url.bytesLess, Bool.or_eq_false_iff, Bool.and_eq_false_iff,
          decide_eq_false_iff_not, beq_eq_false_iff_ne, ne_eq] at h1 h2 ⊢
        obtain ⟨h1a, h1b⟩ := h1
        obtain ⟨h2a, h2b⟩ := h2
        refine ⟨by omega, ?_⟩
        by_cases hca : c.toNat = a.toNat
        · right
          have hba : b.toNat = a.toNat := by omega
          have hcb : c.toNat = b.toNat := by omega
          rcases h1b with h | h
          · exact absurd hba h
          · rcases h2b with h3 | h3
            · exact absurd hcb h3
            · exact ih bs cs h h3
        · left
          exact hca

theorem stringLE_total : IsTotal String url.stringLE :=
  ⟨fun a b => (bytesLess_total (bytesOf b) (bytesOf a)).symm⟩

theorem stringLE_trans : IsTrans String url.stringLE :=
  ⟨fun a b c h1 h2 => bytesLess_trans (bytesOf a) (bytesOf b) (bytesOf c) h1 h2⟩

theorem stringLE_refl (a : String) : url.stringLE a a :=
  (bytesLess_total (bytesOf a) (bytesOf a)).elim id id

theorem sortedKeys_sorted (v : url.Values) : List.Pairwise url.stringLE v.sortedKeys := by
  haveI := stringLE_total
  haveI := stringLE_trans
  exact List.sorted_insertionSort url.stringLE (v.map Prod.fst)

/-- The keys of the pairs that `Encode` writes are in ascending order. -/
theorem pairs_keys_ascending (v : url.Values) :
    List.Pairwise url.stringLE (v.pairs.map Prod.fst) := by
  unfold url.Values.pairs
  have h := sortedKeys_sorted v
  generalize v.sortedKeys = l at h
  induction l with
  | nil => simp
  | cons a t ih =>
    rw [List.pairwise_cons] at h
    rw [List.flatMap_cons, List.map_append, List.pairwise_append]
    refine ⟨?_, ih h.2, ?_⟩
    · rw [List.pairwise_map, List.pairwise_map]
      exact List.pairwise_of_forall (fun _ _ => stringLE_refl a)
    · intro x hx y hy
      simp only [List.mem_map, List.mem_flatMap] at hx hy
      obtain ⟨kv, ⟨x1, _, hkv⟩, hx⟩ := hx
      obtain ⟨kv2, ⟨k2, hk2, x2, _, hkv2⟩, hy⟩ := hy
      subst hkv hkv2
      simp only at hx hy
      subst hx hy
      exact h.1 k2 hk2

/-! ### Bytes and headers -/

theorem bytesOf_length (s : String) : (bytesOf s).length = s.utf8ByteSize := by
  unfold bytesOf
  rw [Array.length_toList]
  exact String.size_toUTF8 s

theorem Header_Values_Set_self (h : http.Header) (k v : String) :
    http.Header.Values (http.Header.Set h k v) k = [v] := by
  simp [http.Header.Values, http.Header.Set, List.lookup]

theorem Header_Values_Set_ne (h : http.Header) (k2 v k : String)
    (hne : http.CanonicalMIMEHeaderKey k ≠ http.CanonicalMIMEHeaderKey k2) :
    http.Header.Values (http.Header.Set h k2 v) k = http.Header.Values h k := by
  have hb : (http.CanonicalMIMEHeaderKey k == http.CanonicalMIMEHeaderKey k2) = false := by
    simpa using hne
  simp only [http.Header.Values, http.Header.Set, List.lookup, hb]
  rw [lookup_filter_ne _ _ _ hne]

/-! ### POST: the parameters go to the body -/

theorem encodeParams_post_form (b : HttpRequestBuilder) (hm : b.req.Method = "POST")
    (hb : b.req.Body = none) (hp : b.params.Encode ≠ "") :
    b.encodeParams =
      { b with req := { b.req with
          Header := b.req.Header.Set "Content-Type" "application/x-www-form-urlencoded",
          Body := some ⟨NewBufferString b.params.Encode⟩,
          ContentLength := b.params.Encode.utf8ByteSize } } := by
  unfold HttpRequestBuilder.encodeParams
  have h1 := (utf8ByteSize_pos_iff _).2 hp
  have c1 : ¬ (b.req.Method = "GET" ∧ b.params.Encode.utf8ByteSize > 0) := by
    rw [hm]
    exact fun h => absurd h.1 (by decide)
  have c2 : b.req.Method = "POST" ∧ b.req.Body = none ∧ b.params.Encode.utf8ByteSize > 0 :=
    ⟨hm, hb, h1⟩
  simp only [if_neg c1, if_pos c2]
  rfl

theorem encodeParams_post_body (b : HttpRequestBuilder) (hm : b.req.Method = "POST")
    (hb : b.req.Body ≠ none) : b.encodeParams = b := by
  unfold HttpRequestBuilder.encodeParams
  have hg : ¬ ("POST" = "GET") := by decide
  simp only [hm, hb, hg, and_false, false_and, if_false]

/-- C2: for a builder made by `Post u`, configured by any chain of calls that leaves the body
unset, and with a non-empty parameter encoding `p`: finalize hands to the send step the URL `u`
unchanged and the builder's request with the body set to the bytes of `p`, `ContentLength` set
to the byte length of `p`, and the header `Content-Type` carrying exactly the one value
`application/x-www-form-urlencoded`. The pairs of `p` are written with their keys in ascending
order, so `Param("a","x").Param("b","y")` and `Param("b","y").Param("a","x")` both give
`a=x&b=y`. -/
theorem post_finalize_form_body (env : Env) (w : World) (u : String) (cs : List ConfigCall)
    (hb : ((Post u).chain cs).req.Body = none)
    (hp : ((Post u).chain cs).params.Encode ≠ "") :
    (∃ req : Request,
      ((Post u).chain cs).getResponse env w = ((Post u).chain cs).finalizeWith env w u req ∧
      req.Method = "POST" ∧
      req.Body = some ⟨⟨bytesOf ((Post u).chain cs).params.Encode⟩⟩ ∧
      req.ContentLength = (bytesOf ((Post u).chain cs).params.Encode).length ∧
      req.ContentLength = ((Post u).chain cs).params.Encode.utf8ByteSize ∧
      req.Header.Values "Content-Type" = ["application/x-www-form-urlencoded"] ∧
      (∀ k, http.CanonicalMIMEHeaderKey k ≠ "Content-Type" →
        req.Header.Values k = ((Post u).chain cs).req.Header.Values k)) ∧
    List.Pairwise url.stringLE (((Post u).chain cs).params.pairs.map Prod.fst) ∧
    ((Post "http://example.test/submit").chain
      [ConfigCall.Param "a" "x", ConfigCall.Param "b" "y"]).params.Encode = "a=x&b=y" ∧
    ((Post "http://example.test/submit").chain
      [ConfigCall.Param "b" "y", ConfigCall.Param "a" "x"]).params.Encode = "a=x&b=y" := by
  have hm : ((Post u).chain cs).req.Method = "POST" := chain_method cs (Post u)
  have hu : ((Post u).chain cs).url = u := chain_url cs (Post u)
  refine ⟨⟨{ ((Post u).chain cs).req with
      Header := ((Post u).chain cs).req.Header.Set "Content-Type"
        "application/x-www-form-urlencoded",
      Body := some ⟨NewBufferString ((Post u).chain cs).params.Encode⟩,
      ContentLength := ((Post u).chain cs).params.Encode.utf8ByteSize },
    ?_, ?_, ?_, ?_, ?_, ?_, ?_⟩, pairs_keys_ascending _, by decide, by decide⟩
  · rw [getResponse_eq_finalizeWith, encodeParams_post_form _ hm hb hp, hu]
  · exact hm
  · rfl
  · show ((((Post u).chain cs).params.Encode.utf8ByteSize : Nat) : Int) = _
    rw [bytesOf_length]
  · rfl
  · exact Header_Values_Set_self _ _ _
  · intro k hk
    exact Header_Values_Set_ne _ _ _ _ hk

/-- C2 at `Post("http://example.test/submit").Param("a","x").Param("b","y")`: the body handed
to the send step is `a=x&b=y`, with length 7 and the form content type. -/
theorem post_finalize_form_body_witness :
    ∃ req : Request,
      ((Post "http://example.test/submit").chain
        [ConfigCall.Param "a" "x", ConfigCall.Param "b" "y"]).getResponse sampleEnv [] =
      ((Post "http://example.test/submit").chain
        [ConfigCall.Param "a" "x", ConfigCall.Param "b" "y"]).finalizeWith sampleEnv []
        "http://example.test/submit" req ∧
      req.Body = some ⟨⟨bytesOf "a=x&b=y"⟩⟩ ∧ req.ContentLength = 7 ∧
      req.Header.Values "Content-Type" = ["application/x-www-form-urlencoded"] := by
  obtain ⟨req, h1, _, h3, _, h5, h6, _⟩ :=
    (post_finalize_form_body sampleEnv [] "http://example.test/submit"
      [ConfigCall.Param "a" "x", ConfigCall.Param "b" "y"] rfl (by decide)).1
  exact ⟨req, h1, h3, h5, h6⟩

/-! ### POST with an explicit body -/

theorem call_body_frame (b : HttpRequestBuilder) (c : ConfigCall) (h : c.setsBody = false) :
    (b.call c).req.Body = b.req.Body ∧ (b.call c).req.ContentLength = b.req.ContentLength := by
  cases c with
  | Header k v => exact ⟨rfl, rfl⟩
  | Param k v => exact ⟨rfl, rfl⟩
  | Body d =>
    cases d with
    | str t => simp [ConfigCall.setsBody] at h
    | bytes t => simp [ConfigCall.setsBody] at h
    | other => exact ⟨rfl, rfl⟩

theorem chain_body_frame (cs : List ConfigCall) (b : HttpRequestBuilder)
    (h : ∀ c ∈ cs, c.setsBody = false) :
    (b.chain cs).req.Body = b.req.Body ∧
    (b.chain cs).req.ContentLength = b.req.ContentLength := by
  induction cs generalizing b with
  | nil => exact ⟨rfl, rfl⟩
  | cons c t ih =>
    have h1 := call_body_frame b c (h c (List.mem_cons_self c t))
    have h2 := ih (b.call c) (fun x hx => h x (List.mem_cons_of_mem c hx))
    show ((b.call c).chain t).req.Body = _ ∧ ((b.call c).chain t).req.ContentLength = _
    rw [h2.1, h2.2, h1.1, h1.2]
    exact ⟨rfl, rfl⟩

theorem Body_content (b : HttpRequestBuilder) (d : BodyData) (bs : List UInt8)
    (hd : d.content = some bs) :
    (b.Body d).req.Body = some ⟨⟨bs⟩⟩ ∧ (b.Body d).req.ContentLength = bs.length := by
  cases d with
  | str t =>
    simp only [BodyData.content, Option.some.injEq] at hd
    subst hd
    refine ⟨rfl, ?_⟩
    show ((t.utf8ByteSize : Nat) : Int) = _
    rw [bytesOf_length]
  | bytes t =>
    simp only [BodyData.content, Option.some.injEq] at hd
    subst hd
    exact ⟨rfl, rfl⟩
  | other => simp [BodyData.content] at hd

theorem chain_append (b : HttpRequestBuilder) (cs1 cs2 : List ConfigCall) :
    b.chain (cs1 ++ cs2) = (b.chain cs1).chain cs2 := by
  unfold HttpRequestBuilder.chain
  rw [List.foldl_append]

/-- C3: take a builder made by `Post u`, any calls `cs1`, then `Body(d)` where `d` is a string
or a byte slice with bytes `bs` (the empty one included), then any calls `cs2` that do not
assign the body again. Its request holds the body `bs` with `ContentLength` the length of
`bs`, and finalize builds no body from the parameters: it hands to the send step the URL `u`
unchanged and the request exactly as configured, so with the body `bs`, its length, and the
headers the caller set and no other. After the call the headers and the content length are
still the same, and the body holds the bytes of `bs` that the send left unread. -/
theorem post_body_suppresses_params (env : Env) (w : World) (u : String)
    (cs1 cs2 : List ConfigCall) (d : BodyData) (bs : List UInt8)
    (hd : d.content = some bs) (hcs : ∀ c ∈ cs2, c.setsBody = false) :
    ((Post u).chain (cs1 ++ ConfigCall.Body d :: cs2)).req.Body = some ⟨⟨bs⟩⟩ ∧
    ((Post u).chain (cs1 ++ ConfigCall.Body d :: cs2)).req.ContentLength = bs.length ∧
    ((Post u).chain (cs1 ++ ConfigCall.Body d :: cs2)).getResponse env w =
      ((Post u).chain (cs1 ++ ConfigCall.Body d :: cs2)).finalizeWith env w u
        ((Post u).chain (cs1 ++ ConfigCall.Body d :: cs2)).req ∧
    (((Post u).chain (cs1 ++ ConfigCall.Body d :: cs2)).getResponse env w).2.1.req.Header =
      ((Post u).chain (cs1 ++ ConfigCall.Body d :: cs2)).req.Header ∧
    (((Post u).chain (cs1 ++ ConfigCall.Body d :: cs2)).getResponse env w).2.1.req.ContentLength =
      bs.length ∧
    ∃ n, (((Post u).chain (cs1 ++ ConfigCall.Body d :: cs2)).getResponse env w).2.1.req.Body =
      some ⟨⟨bs.drop n⟩⟩ := by
  generalize hB : (Post u).chain (cs1 ++ ConfigCall.Body d :: cs2) = b
  have hm : b.req.Method = "POST" := by rw [← hB]; exact chain_method _ (Post u)
  have hu : b.url = u := by rw [← hB]; exact chain_url _ (Post u)
  have hbody : b.req.Body = some ⟨⟨bs⟩⟩ ∧ b.req.ContentLength = bs.length := by
    rw [← hB, chain_append]
    have h1 := Body_content ((Post u).chain cs1) d bs hd
    have h2 := chain_body_frame cs2 (((Post u).chain cs1).Body d) hcs
    show ((((Post u).chain cs1).Body d).chain cs2).req.Body = _ ∧
      ((((Post u).chain cs1).Body d).chain cs2).req.ContentLength = _
    rw [h2.1, h2.2]
    exact h1
  have he : b.encodeParams = b :=
    encodeParams_post_body b hm (by rw [hbody.1]; exact Option.some_ne_none _)
  have hf : b.getResponse env w = b.finalizeWith env w u b.req := by
    rw [getResponse_eq_finalizeWith, he, hu]
  have hfr := getResponse_req_frame env w u b.req
  refine ⟨hbody.1, hbody.2, hf, ?_, ?_, ?_⟩
  · rw [hf]; exact hfr.2.1
  · rw [hf, ← hbody.2]; exact hfr.2.2.1
  · obtain ⟨n, hn⟩ := hfr.2.2.2
    refine ⟨n, ?_⟩
    rw [hf]
    refine hn.trans ?_
    rw [hbody.1]
    rfl

/-- C3 at `Post("http://example.test/submit").Param("a","x").Body("")`: the empty body
suppresses the form body, and the URL and the request are handed over as configured. -/
theorem post_body_suppresses_params_witness :
    ((Post "http://example.test/submit").chain
        ([ConfigCall.Param "a" "x"] ++ ConfigCall.Body (BodyData.str "") :: [])).req.Body =
      some ⟨⟨[]⟩⟩ ∧
    ((Post "http://example.test/submit").chain
        ([ConfigCall.Param "a" "x"] ++ ConfigCall.Body (BodyData.str "") :: [])).getResponse
        sampleEnv [] =
      ((Post "http://example.test/submit").chain
        ([ConfigCall.Param "a" "x"] ++ ConfigCall.Body (BodyData.str "") :: [])).finalizeWith
        sampleEnv [] "http://example.test/submit"
        ((Post "http://example.test/submit").chain
          ([ConfigCall.Param "a" "x"] ++ ConfigCall.Body (BodyData.str "") :: [])).req :=
  ⟨(post_body_suppresses_params sampleEnv [] "http://example.test/submit"
      [ConfigCall.Param "a" "x"] [] (BodyData.str "") [] (by decide)
      (fun c hc => absurd hc (List.not_mem_nil c))).1,
   (post_body_suppresses_params sampleEnv [] "http://example.test/submit"
      [ConfigCall.Param "a" "x"] [] (BodyData.str "") [] (by decide)
      (fun c hc => absurd hc (List.not_mem_nil c))).2.2.1⟩

/-! ### Headers: `Header` is last-write-wins, but for the form content type -/

theorem encodeParams_req (b : HttpRequestBuilder) :
    b.encodeParams.req =
      if b.req.Method = "POST" ∧ b.req.Body = none ∧ b.params.Encode ≠ "" then
        { b.req with
          Header := b.req.Header.Set "Content-Type" "application/x-www-form-urlencoded",
          Body := some ⟨NewBufferString b.params.Encode⟩,
          ContentLength := b.params.Encode.utf8ByteSize }
      else b.req := by
  by_cases hg : b.req.Method = "GET"
  · have hc : ¬ (b.req.Method = "POST" ∧ b.req.Body = none ∧ b.params.Encode ≠ "") := by
      rw [hg]
      exact fun h => absurd h.1 (by decide)
    rw [if_neg hc]
    by_cases hp : b.params.Encode = ""
    · rw [encodeParams_get_empty _ hg hp]
    · by_cases hq : '?' ∈ b.url.data
      · rw [encodeParams_get_query _ hg hp hq]
      · rw [encodeParams_get_noquery _ hg hp hq]
  · by_cases hc : b.req.Method = "POST" ∧ b.req.Body = none ∧ b.params.Encode ≠ ""
    · rw [if_pos hc, encodeParams_post_form _ hc.1 hc.2.1 hc.2.2]
    · rw [if_neg hc]
      have he : b.encodeParams = b := by
        unfold HttpRequestBuilder.encodeParams
        have c1 : ¬ (b.req.Method = "GET" ∧ b.params.Encode.utf8ByteSize > 0) :=
          fun h => hg h.1
        have c2 : ¬ (b.req.Method = "POST" ∧ b.req.Body = none ∧
            b.params.Encode.utf8ByteSize > 0) :=
          fun h => hc ⟨h.1, h.2.1, (utf8ByteSize_pos_iff _).1 h.2.2⟩
        simp only [if_neg c1, if_neg c2]
      rw [he]

theorem canonical_content_type : http.CanonicalMIMEHeaderKey "Content-Type" = "Content-Type" := by
  decide

theorem encodeParams_header (b : HttpRequestBuilder) (k : String) :
    b.encodeParams.req.Header.Values k =
      if b.req.Method = "POST" ∧ b.req.Body = none ∧ b.params.Encode ≠ "" ∧
          http.CanonicalMIMEHeaderKey k = "Content-Type" then
        ["application/x-www-form-urlencoded"]
      else b.req.Header.Values k := by
  rw [encodeParams_req]
  by_cases hc : b.req.Method = "POST" ∧ b.req.Body = none ∧ b.params.Encode ≠ ""
  · rw [if_pos hc]
    by_cases hk : http.CanonicalMIMEHeaderKey k = "Content-Type"
    · rw [if_pos ⟨hc.1, hc.2.1, hc.2.2, hk⟩]
      show http.Header.Values (http.Header.Set b.req.Header "Content-Type" _) k = _
      simp only [http.Header.Values, http.Header.Set, hk, canonical_content_type, List.lookup,
        beq_self_eq_true, Option.getD_some]
    · rw [if_neg (fun h => hk h.2.2.2)]
      show http.Header.Values (http.Header.Set b.req.Header "Content-Type" _) k = _
      exact Header_Values_Set_ne _ _ _ _ (by rw [canonical_content_type]; exact hk)
  · rw [if_neg hc, if_neg (fun h => hc ⟨h.1, h.2.1, h.2.2.1⟩)]

theorem call_header_frame (b : HttpRequestBuilder) (c : ConfigCall) (k : String)
    (h : ∀ k2 v2, c = ConfigCall.Header k2 v2 →
      http.CanonicalMIMEHeaderKey k2 ≠ http.CanonicalMIMEHeaderKey k) :
    (b.call c).req.Header.Values k = b.req.Header.Values k := by
  cases c with
  | Header k2 v2 => exact Header_Values_Set_ne _ _ _ _ (Ne.symm (h k2 v2 rfl))
  | Param k2 v2 => rfl
  | Body d => cases d <;> rfl

theorem chain_header_frame (cs : List ConfigCall) (b : HttpRequestBuilder) (k : String)
    (h : ∀ c ∈ cs, ∀ k2 v2, c = ConfigCall.Header k2 v2 →
      http.CanonicalMIMEHeaderKey k2 ≠ http.CanonicalMIMEHeaderKey k) :
    (b.chain cs).req.Header.Values k = b.req.Header.Values k := by
  induction cs generalizing b with
  | nil => rfl
  | cons c t ih =>
    show ((b.call c).chain t).req.Header.Values k = _
    rw [ih (b.call c) (fun x hx => h x (List.mem_cons_of_mem c hx)),
      call_header_frame b c k (h c (List.mem_cons_self c t))]

/-- C4, the claim as stated fails: on
`Post("http://example.test/submit").Param("a","x").Header("Content-Type","text/plain")` the
last `Header` call for `Content-Type` gave `text/plain`, yet the request that finalize hands to
the send step (the one logged by the send) carries `application/x-www-form-urlencoded`. So it
is false that for every builder and every `Header(k, v)` call the request sent carries for `k`
exactly `v`. -/
theorem header_last_write_counterexample :
    (¬ ∀ (b : HttpRequestBuilder) (k v : String),
        (b.Header k v).encodeParams.req.Header.Values k = [v]) ∧
    ((((Post "http://example.test/submit").Param "a" "x").Header "Content-Type"
        "text/plain").getResponse sampleEnv []).1 =
      [Event.netDial "tcp" "example.test:http",
       Event.connDo ⟨⟨0⟩⟩
        { Method := "POST",
          URL := some ⟨"http", "", "example.test", "/", "", ""⟩,
          Header := [("Content-Type", ["application/x-www-form-urlencoded"])],
          Body := some ⟨⟨bytesOf "a=x"⟩⟩,
          ContentLength := 3 }] := by
  constructor
  · intro h
    have h1 := h ((Post "http://example.test/submit").Param "a" "x") "Content-Type" "text/plain"
    revert h1
    decide
  · decide

/-- C4 as amended: take any builder, any calls `cs1`, then `Header(k, v)`, then any calls `cs2`
with no `Header` call for a key of the same canonical form as `k` (so `v` is the last value
set for `k`). The request that finalize hands to the send step carries for `k` exactly one
value. It is `v`, except on a POST builder with no body and a non-empty parameter encoding
when `k` canonicalises to `Content-Type`: there finalize itself sets the header and the value
is `application/x-www-form-urlencoded`. -/
theorem header_last_write_wins (env : Env) (w : World) (b : HttpRequestBuilder)
    (cs1 cs2 : List ConfigCall) (k v : String)
    (hcs : ∀ c ∈ cs2, ∀ k2 v2, c = ConfigCall.Header k2 v2 →
      http.CanonicalMIMEHeaderKey k2 ≠ http.CanonicalMIMEHeaderKey k) :
    (b.chain (cs1 ++ ConfigCall.Header k v :: cs2)).getResponse env w =
      (b.chain (cs1 ++ ConfigCall.Header k v :: cs2)).finalizeWith env w
        (b.chain (cs1 ++ ConfigCall.Header k v :: cs2)).encodeParams.url
        (b.chain (cs1 ++ ConfigCall.Header k v :: cs2)).encodeParams.req ∧
    (b.chain (cs1 ++ ConfigCall.Header k v :: cs2)).encodeParams.req.Header.Values k =
      if (b.chain (cs1 ++ ConfigCall.Header k v :: cs2)).req.Method = "POST" ∧
          (b.chain (cs1 ++ ConfigCall.Header k v :: cs2)).req.Body = none ∧
          (b.chain (cs1 ++ ConfigCall.Header k v :: cs2)).params.Encode ≠ "" ∧
          http.CanonicalMIMEHeaderKey k = "Content-Type" then
        ["application/x-www-form-urlencoded"]
      else [v] := by
  refine ⟨getResponse_eq_finalizeWith env w _, ?_⟩
  rw [encodeParams_header]
  have hv : (b.chain (cs1 ++ ConfigCall.Header k v :: cs2)).req.Header.Values k = [v] := by
    rw [chain_append]
    show ((((b.chain cs1).Header k v).chain cs2)).req.Header.Values k = _
    rw [chain_header_frame cs2 _ k hcs]
    exact Header_Values_Set_self _ k v
  rw [hv]

/-- C4 as amended at `Get("http://example.test/api")` with `Header("accept","a")`,
`Header("Accept","b")` and then `Param("q","1")`: the request carries for `Accept` exactly
`b`. -/
theorem header_last_write_wins_witness :
    ((Get "http://example.test/api").chain
      ([ConfigCall.Header "accept" "a"] ++
        ConfigCall.Header "Accept" "b" :: [ConfigCall.Param "q" "1"])).encodeParams.req.Header.Values
      "Accept" = ["b"] :=
  (header_last_write_wins sampleEnv [] (Get "http://example.test/api")
    [ConfigCall.Header "accept" "a"] [ConfigCall.Param "q" "1"] "Accept" "b"
    (by
      intro c hc k2 v2 h
      rw [List.mem_singleton] at hc
      rw [hc] at h
      cases h)).2

/-! ### The dial address -/

theorem byteLen_nonneg (l : List Char) : 0 ≤ byteLen l := by
  induction l with
  | nil => exact le_refl _
  | cons c t ih => simp only [byteLen]; omega

theorem byteLen_append (a l : List Char) : byteLen (a ++ l) = byteLen a + byteLen l := by
  induction a with
  | nil => simp [byteLen]
  | cons c t ih =>
    show byteLen (t ++ l) + (c.utf8Size : Int) = (byteLen t + c.utf8Size) + byteLen l
    rw [ih]
    omega

theorem lastIndexFrom_ge (sub l : List Char) : -1 ≤ strings.lastIndexFrom sub l := by
  induction l with
  | nil => simp only [strings.lastIndexFrom]; split <;> omega
  | cons c t ih =>
    simp only [strings.lastIndexFrom]
    split
    · omega
    · split <;> omega

theorem lastIndexFrom_cons (x c : Char) (t : List Char) :
    strings.lastIndexFrom [x] (c :: t) =
      if strings.lastIndexFrom [x] t ≠ -1 then strings.lastIndexFrom [x] t + c.utf8Size
      else if x = c then 0 else -1 := by
  simp [strings.lastIndexFrom, strings.startsWith]

theorem lastIndexFrom_single (x : Char) (l : List Char) :
    strings.lastIndexFrom [x] l = -1 ↔ x ∉ l := by
  induction l with
  | nil => simp [strings.lastIndexFrom]
  | cons c t ih =>
    have hge := lastIndexFrom_ge [x] t
    rw [lastIndexFrom_cons, List.mem_cons, not_or, ← ih]
    by_cases hr : strings.lastIndexFrom [x] t = -1
    · by_cases hxc : x = c
      · subst hxc
        simp [hr]
      · simp [hr, hxc]
    · simp only [ne_eq, hr, not_false_eq_true, if_true, and_false, iff_false]
      omega

theorem lastIndexFrom_lt (x : Char) (l : List Char) :
    strings.lastIndexFrom [x] l < byteLen l := by
  induction l with
  | nil => simp [strings.lastIndexFrom, byteLen]
  | cons c t ih =>
    have hpos := Char.utf8Size_pos c
    have hnn := byteLen_nonneg t
    rw [lastIndexFrom_cons]
    simp only [byteLen]
    split
    · omega
    · split <;> omega

theorem lastIndexFrom_append (x : Char) (a l : List Char) :
    strings.lastIndexFrom [x] (a ++ l) =
      if strings.lastIndexFrom [x] l ≠ -1 then byteLen a + strings.lastIndexFrom [x] l
      else strings.lastIndexFrom [x] a := by
  induction a with
  | nil =>
    by_cases h : strings.lastIndexFrom [x] l = -1
    · simp [h, strings.lastIndexFrom]
    · simp [h, byteLen]
  | cons c t ih =>
    have hge := lastIndexFrom_ge [x] l
    have hnn := byteLen_nonneg t
    rw [List.cons_append, lastIndexFrom_cons, lastIndexFrom_cons, ih]
    by_cases h : strings.lastIndexFrom [x] l = -1
    · simp only [h, ne_eq, not_true_eq_false, if_false]
    · have h2 : byteLen t + strings.lastIndexFrom [x] l ≠ -1 := by omega
      simp only [ne_eq, h, not_false_eq_true, if_true, h2, byteLen]
      omega

theorem last_occurrence (x : Char) (l : List Char) (h : x ∈ l) :
    ∃ a p, l = a ++ x :: p ∧ x ∉ p := by
  induction l with
  | nil => simp at h
  | cons c t ih =>
    by_cases ht : x ∈ t
    · obtain ⟨a, p, hl, hp⟩ := ih ht
      exact ⟨c :: a, p, by rw [hl]; rfl, hp⟩
    · rcases List.mem_cons.1 h with hxc | hxt
      · exact ⟨[], t, by rw [hxc]; rfl, ht⟩
      · exact absurd hxt ht

/-- The source's `hasPort` holds exactly when the host is `a + ":" + p` with neither `:` nor
`]` in `p`. -/
theorem hasPort_iff (h : String) :
    hasPort h = true ↔ ∃ a p : String, h = a ++ ":" ++ p ∧ ':' ∉ p.data ∧ ']' ∉ p.data := by
  unfold hasPort strings.LastIndex
  rw [decide_eq_true_iff]
  show strings.lastIndexFrom [':'] h.data > strings.lastIndexFrom [']'] h.data ↔ _
  constructor
  · intro hgt
    have hge := lastIndexFrom_ge [']'] h.data
    have hne : ¬ strings.lastIndexFrom [':'] h.data = -1 := by omega
    have hmem : ':' ∈ h.data := by
      by_contra hc
      exact hne ((lastIndexFrom_single ':' h.data).2 hc)
    obtain ⟨a, p, hl, hp⟩ := last_occurrence ':' h.data hmem
    refine ⟨⟨a⟩, ⟨p⟩, ?_, hp, ?_⟩
    · apply String.ext
      simp [String.data_append, hl]
    · intro hb
      have h1 : strings.lastIndexFrom [':'] (':' :: p) = 0 := by
        rw [lastIndexFrom_cons, (lastIndexFrom_single ':' p).2 hp]
        simp
      have h2 : strings.lastIndexFrom [']'] p ≠ -1 :=
        fun hc => (lastIndexFrom_single ']' p).1 hc hb
      have h3 := lastIndexFrom_ge [']'] p
      have h4 : strings.lastIndexFrom [']'] (':' :: p) =
          strings.lastIndexFrom [']'] p + (':' : Char).utf8Size := by
        rw [lastIndexFrom_cons, if_pos h2]
      have h5 := Char.utf8Size_pos ':'
      rw [hl, lastIndexFrom_append, lastIndexFrom_append, h1, h4] at hgt
      have h6 : strings.lastIndexFrom [']'] p + ((':' : Char).utf8Size : Int) ≠ -1 := by omega
      rw [if_pos h6, if_pos (by decide)] at hgt
      omega
  · rintro ⟨a, p, hl, hp, hb⟩
    have hd : h.data = a.data ++ ':' :: p.data := by
      rw [hl]
      simp [String.data_append]
    have h1 : strings.lastIndexFrom [':'] (':' :: p.data) = 0 := by
      rw [lastIndexFrom_cons, (lastIndexFrom_single ':' p.data).2 hp]
      simp
    have h2 : strings.lastIndexFrom [']'] (':' :: p.data) = -1 := by
      rw [lastIndexFrom_single]
      intro hc
      rcases List.mem_cons.1 hc with h3 | h3
      · exact absurd h3 (by decide)
      · exact hb h3
    have h3 := lastIndexFrom_lt ']' a.data
    rw [hd, lastIndexFrom_append, lastIndexFrom_append, h1, h2]
    rw [if_pos (by decide), if_neg (by decide)]
    omega


theorem dialled_append (w l : World) : dialled (w ++ l) = dialled w ++ dialled l := by
  induction w with
  | nil => rfl
  | cons e t ih => cases e <;> simp [dialled, ih]

theorem newConn_dialled (env : Env) (w : World) (u : url.URL) :
    dialled (newConn env w u).1 = dialled w ++ [dialAddr u] := by
  unfold newConn
  simp only
  split
  · split <;> simp [dialled_append, dialled]
  · split
    · simp [dialled_append, dialled]
    · split <;> simp [dialled_append, dialled]

theorem append_colon_ne (h s : String) : h ++ ":" ++ s ≠ h := by
  intro he
  have hl := congrArg (fun x : String => x.data.length) he
  simp [String.data_append] at hl

theorem dialAddr_eq (u : url.URL) :
    dialAddr u = if hasPort u.Host = true then u.Host else u.Host ++ ":" ++ u.Scheme := by
  unfold dialAddr
  by_cases hp : hasPort u.Host = true
  · simp [hp]
  · simp [hp, String.append_assoc]

theorem newConn_http (env : Env) (w : World) (u : url.URL) (hs : u.Scheme = "http") :
    newConn env w u =
      (w ++ [Event.netDial "tcp" (dialAddr u)],
        (env.netDial w "tcp" (dialAddr u)).map NewClientConn) := by
  unfold newConn
  simp only [hs, if_true]
  cases env.netDial w "tcp" (dialAddr u) <;> rfl

theorem newConn_tls_error (env : Env) (w : World) (u : url.URL) (hs : u.Scheme ≠ "http")
    (e : GoError) (he : env.tlsDial w "tcp" (dialAddr u) = .error e) :
    newConn env w u = (w ++ [Event.tlsDial "tcp" (dialAddr u)], .error e) := by
  unfold newConn
  simp only [hs, if_false, he]

theorem newConn_tls_ok (env : Env) (w : World) (u : url.URL) (hs : u.Scheme ≠ "http")
    (conn : Conn) (he : env.tlsDial w "tcp" (dialAddr u) = .ok conn) :
    (newConn env w u).1 =
        w ++ [Event.tlsDial "tcp" (dialAddr u),
          Event.verifyHostname conn
            (if hasPort u.Host = true then
              u.Host.extract ⟨0⟩ ⟨(strings.LastIndex u.Host ":").toNat⟩
            else u.Host)] ∧
      (newConn env w u).2 =
        match env.VerifyHostname (w ++ [Event.tlsDial "tcp" (dialAddr u)]) conn
            (if hasPort u.Host = true then
              u.Host.extract ⟨0⟩ ⟨(strings.LastIndex u.Host ":").toNat⟩
            else u.Host) with
        | some err => .error err
        | none => .ok (NewClientConn conn) := by
  unfold newConn
  simp only [hs, if_false, he]
  split <;> simp

/-- C8: `newConn` dials exactly one address, and it is the address it hands to the dialler:
the host `h` unchanged exactly when `hasPort(h)` holds, and `h + ":" + s` for the scheme `s`
otherwise. For the scheme `http` the outcome of `newConn` is the outcome of `net.Dial` at that
address; for every other scheme it is decided by `tls.Dial` at that address (and, when that
succeeds, by the verification of the host name). `hasPort(h)` holds exactly when the last `:`
of `h` comes after the last `]`, equivalently when `h` is `a + ":" + p` with neither `:` nor
`]` in `p`. So `[::1]` is dialled as `[::1]:http`, while `[::1]:8080` and `example.com:8080`
are dialled unchanged. -/
theorem newConn_dial_address (env : Env) (w : World) (u : url.URL) :
    (u.Scheme = "http" →
      newConn env w u =
        (w ++ [Event.netDial "tcp"
            (if hasPort u.Host = true then u.Host else u.Host ++ ":" ++ u.Scheme)],
          (env.netDial w "tcp"
            (if hasPort u.Host = true then u.Host else u.Host ++ ":" ++ u.Scheme)).map
            NewClientConn)) ∧
    (u.Scheme ≠ "http" →
      (∀ e, env.tlsDial w "tcp"
          (if hasPort u.Host = true then u.Host else u.Host ++ ":" ++ u.Scheme) = .error e →
        newConn env w u =
          (w ++ [Event.tlsDial "tcp"
              (if hasPort u.Host = true then u.Host else u.Host ++ ":" ++ u.Scheme)],
            .error e)) ∧
      (∀ conn, env.tlsDial w "tcp"
          (if hasPort u.Host = true then u.Host else u.Host ++ ":" ++ u.Scheme) = .ok conn →
        (newConn env w u).1 =
          w ++ [Event.tlsDial "tcp"
              (if hasPort u.Host = true then u.Host else u.Host ++ ":" ++ u.Scheme),
            Event.verifyHostname conn
              (if hasPort u.Host = true then
                u.Host.extract ⟨0⟩ ⟨(strings.LastIndex u.Host ":").toNat⟩
              else u.Host)] ∧
        (newConn env w u).2 =
          match env.VerifyHostname
              (w ++ [Event.tlsDial "tcp"
                (if hasPort u.Host = true then u.Host else u.Host ++ ":" ++ u.Scheme)])
              conn
              (if hasPort u.Host = true then
                u.Host.extract ⟨0⟩ ⟨(strings.LastIndex u.Host ":").toNat⟩
              else u.Host) with
          | some err => .error err
          | none => .ok (NewClientConn conn))) ∧
    dialled (newConn env w u).1 =
      dialled w ++ [if hasPort u.Host = true then u.Host else u.Host ++ ":" ++ u.Scheme] ∧
    ((if hasPort u.Host = true then u.Host else u.Host ++ ":" ++ u.Scheme) = u.Host ↔
      hasPort u.Host = true) ∧
    (hasPort u.Host = true ↔
      strings.LastIndex u.Host ":" > strings.LastIndex u.Host "]") ∧
    (hasPort u.Host = true ↔
      ∃ a p : String, u.Host = a ++ ":" ++ p ∧ ':' ∉ p.data ∧ ']' ∉ p.data) ∧
    newConn env [] ⟨"http", "", "[::1]", "/", "", ""⟩ =
      ([Event.netDial "tcp" "[::1]:http"],
        (env.netDial [] "tcp" "[::1]:http").map NewClientConn) ∧
    newConn env [] ⟨"http", "", "[::1]:8080", "/", "", ""⟩ =
      ([Event.netDial "tcp" "[::1]:8080"],
        (env.netDial [] "tcp" "[::1]:8080").map NewClientConn) ∧
    newConn env [] ⟨"http", "", "example.com:8080", "/", "", ""⟩ =
      ([Event.netDial "tcp" "example.com:8080"],
        (env.netDial [] "tcp" "example.com:8080").map NewClientConn) := by
  refine ⟨?_, ?_, ?_, ?_, ?_, hasPort_iff u.Host, ?_, ?_, ?_⟩
  · intro hs
    rw [← dialAddr_eq]
    exact newConn_http env w u hs
  · intro hs
    rw [← dialAddr_eq]
    exact ⟨fun e he => newConn_tls_error env w u hs e he,
      fun conn he => newConn_tls_ok env w u hs conn he⟩
  · rw [newConn_dialled, dialAddr_eq]
  · by_cases hp : hasPort u.Host = true
    · simp [hp]
    · have hf : hasPort u.Host = false := by simpa using hp
      rw [hf]
      simp only [Bool.false_eq_true, if_false, iff_false]
      exact append_colon_ne _ _
  · unfold hasPort
    rw [decide_eq_true_iff]
  · exact newConn_http env [] _ rfl
  · exact newConn_http env [] _ rfl
  · exact newConn_http env [] _ rfl

/-- C8 at diallers that report the address they are asked for: for `http` and the host `[::1]`
the plain dialler is asked for `[::1]:http`, and for the scheme `ftp` and the host
`example.test` the TLS dialler is asked for `example.test:ftp`. -/
theorem newConn_dial_address_witness :
    newConn refuseEnv [] ⟨"http", "", "[::1]", "/", "", ""⟩ =
      ([Event.netDial "tcp" "[::1]:http"], .error (GoError.other "[::1]:http")) ∧
    newConn refuseEnv [] ⟨"ftp", "", "example.test", "/", "", ""⟩ =
      ([Event.tlsDial "tcp" "example.test:ftp"], .error (GoError.other "example.test:ftp")) :=
  ⟨(newConn_dial_address refuseEnv [] ⟨"http", "", "[::1]", "/", "", ""⟩).1 rfl,
   ((newConn_dial_address refuseEnv [] ⟨"ftp", "", "example.test", "/", "", ""⟩).2.1
      (by decide)).1 (GoError.other "example.test:ftp") rfl⟩

/-! ### Finalize twice on a GET builder -/

theorem encodeParams_params (b : HttpRequestBuilder) : b.encodeParams.params = b.params := by
  unfold HttpRequestBuilder.encodeParams
  simp only
  split
  · split <;> rfl
  · split <;> rfl

theorem encodeParams_method (b : HttpRequestBuilder) :
    b.encodeParams.req.Method = b.req.Method := by
  rw [encodeParams_req]
  split <;> rfl

theorem getResponse_builder_after (env : Env) (w : World) (b : HttpRequestBuilder) :
    (b.getResponse env w).2.1.url = b.encodeParams.url ∧
    (b.getResponse env w).2.1.params = b.params ∧
    (b.getResponse env w).2.1.req.Method = b.req.Method := by
  refine ⟨rfl, encodeParams_params b, ?_⟩
  show (getResponse env w b.encodeParams.url b.encodeParams.req).req.Method = _
  rw [(getResponse_req_frame env w _ _).1, encodeParams_method]

theorem urlAfter_question (u p : String) (n : Nat) : '?' ∈ (urlAfter u p (n + 1)).data := by
  unfold urlAfter
  by_cases hq : '?' ∈ u.data
  · simp [String.data_append, hq]
  · simp [String.data_append, hq]

theorem encodeParams_url_step (b : HttpRequestBuilder) (u : String) (n : Nat)
    (hm : b.req.Method = "GET") (hp : b.params.Encode ≠ "")
    (hu : b.url = urlAfter u b.params.Encode n) :
    b.encodeParams.url = urlAfter u b.params.Encode (n + 1) := by
  cases n with
  | zero =>
    have hu0 : b.url = u := hu
    by_cases hq : '?' ∈ u.data
    · rw [encodeParams_get_query b hm hp (by rw [hu0]; exact hq)]
      simp [urlAfter, repeatString, hq, hu0]
    · rw [encodeParams_get_noquery b hm hp (by rw [hu0]; exact hq)]
      simp [urlAfter, repeatString, hq, hu0]
  | succ m =>
    rw [encodeParams_get_query b hm hp (by rw [hu]; exact urlAfter_question u _ m)]
    show b.url ++ "&" ++ b.params.Encode = _
    rw [hu]
    simp only [urlAfter, repeatString, String.append_assoc]

theorem finalizeTimes_invariant (env : Env) (w : World) (b : HttpRequestBuilder) (u : String)
    (hm : b.req.Method = "GET") (hu : b.url = u) (hp : b.params.Encode ≠ "") (n : Nat) :
    (finalizeTimes env n (w, b)).2.req.Method = "GET" ∧
    (finalizeTimes env n (w, b)).2.params = b.params ∧
    (finalizeTimes env n (w, b)).2.url = urlAfter u b.params.Encode n := by
  induction n with
  | zero => exact ⟨hm, rfl, hu⟩
  | succ m ih =>
    obtain ⟨h1, h2, h3⟩ := ih
    have ha := getResponse_builder_after env (finalizeTimes env m (w, b)).1
      (finalizeTimes env m (w, b)).2
    refine ⟨?_, ?_, ?_⟩
    · exact ha.2.2.trans h1
    · exact ha.2.1.trans h2
    · refine ha.1.trans ?_
      have := encodeParams_url_step (finalizeTimes env m (w, b)).2 u m h1
        (by rw [h2]; exact hp) (by rw [h2]; exact h3)
      rw [h2] at this
      exact this

/-- C10: finalize is not idempotent on the URL of a GET builder. For a builder made by `Get u`
and any configuration calls, with a non-empty parameter encoding `p` and `sep` being `&` if
`u` contains a `?` and `?` otherwise: after `n` terminal operations in a row, the next one
hands to the send step the URL `u + sep + p` followed by `n` copies of `"&" + p`, so the
`n+1`-th finalize sends `n+1` copies of `p`. In particular the second request uses
`u + sep + p + "&" + p`. -/
theorem get_finalize_repeats_params (env : Env) (w : World) (u : String)
    (cs : List ConfigCall) (hp : ((Get u).chain cs).params.Encode ≠ "") (n : Nat) :
    (finalizeTimes env n (w, (Get u).chain cs)).2.getResponse env
        (finalizeTimes env n (w, (Get u).chain cs)).1 =
      (finalizeTimes env n (w, (Get u).chain cs)).2.finalizeWith env
        (finalizeTimes env n (w, (Get u).chain cs)).1
        (u ++ (if '?' ∈ u.data then "&" else "?") ++ ((Get u).chain cs).params.Encode ++
          repeatString ("&" ++ ((Get u).chain cs).params.Encode) n)
        (finalizeTimes env n (w, (Get u).chain cs)).2.req ∧
    (finalizeTimes env 1 (w, (Get u).chain cs)).2.getResponse env
        (finalizeTimes env 1 (w, (Get u).chain cs)).1 =
      (finalizeTimes env 1 (w, (Get u).chain cs)).2.finalizeWith env
        (finalizeTimes env 1 (w, (Get u).chain cs)).1
        (u ++ (if '?' ∈ u.data then "&" else "?") ++ ((Get u).chain cs).params.Encode ++
          "&" ++ ((Get u).chain cs).params.Encode)
        (finalizeTimes env 1 (w, (Get u).chain cs)).2.req := by
  have hm : ((Get u).chain cs).req.Method = "GET" := chain_method cs (Get u)
  have hu : ((Get u).chain cs).url = u := chain_url cs (Get u)
  have key : ∀ m : Nat,
      (finalizeTimes env m (w, (Get u).chain cs)).2.getResponse env
          (finalizeTimes env m (w, (Get u).chain cs)).1 =
        (finalizeTimes env m (w, (Get u).chain cs)).2.finalizeWith env
          (finalizeTimes env m (w, (Get u).chain cs)).1
          (urlAfter u ((Get u).chain cs).params.Encode (m + 1))
          (finalizeTimes env m (w, (Get u).chain cs)).2.req := by
    intro m
    obtain ⟨h1, h2, h3⟩ := finalizeTimes_invariant env w _ u hm hu hp m
    have hstep := encodeParams_url_step (finalizeTimes env m (w, (Get u).chain cs)).2 u m h1
      (by rw [h2]; exact hp) (by rw [h2]; exact h3)
    rw [h2] at hstep
    have hreq : (finalizeTimes env m (w, (Get u).chain cs)).2.encodeParams.req =
        (finalizeTimes env m (w, (Get u).chain cs)).2.req := by
      rw [encodeParams_req, if_neg]
      rw [h1]
      exact fun h => absurd h.1 (by decide)
    rw [getResponse_eq_finalizeWith, hstep, hreq]
  refine ⟨key n, ?_⟩
  have h1 := key 1
  simp only [urlAfter, repeatString, String.append_assoc, String.empty_append] at h1 ⊢
  exact h1


/-- C10 at `Get("http://example.test/api").Param("q","1")`: the second finalize hands the URL
`http://example.test/api?q=1&q=1` to the send step. -/
theorem get_finalize_repeats_params_witness :
    (finalizeTimes sampleEnv 1
        ([], (Get "http://example.test/api").chain [ConfigCall.Param "q" "1"])).2.getResponse
        sampleEnv
        (finalizeTimes sampleEnv 1
          ([], (Get "http://example.test/api").chain [ConfigCall.Param "q" "1"])).1 =
      (finalizeTimes sampleEnv 1
        ([], (Get "http://example.test/api").chain [ConfigCall.Param "q" "1"])).2.finalizeWith
        sampleEnv
        (finalizeTimes sampleEnv 1
          ([], (Get "http://example.test/api").chain [ConfigCall.Param "q" "1"])).1
        "http://example.test/api?q=1&q=1"
        (finalizeTimes sampleEnv 1
          ([], (Get "http://example.test/api").chain [ConfigCall.Param "q" "1"])).2.req :=
  (get_finalize_repeats_params sampleEnv [] "http://example.test/api"
    [ConfigCall.Param "q" "1"] (by decide) 1).2

end httplib
